import Mathlib

/-!
Verification development for the `workflow-cron-start` generation core.

The TypeScript sources (scanner, generator, loader/transformer, public API)
are shallowly embedded below: each JavaScript string operation is modelled
by an executable Lean function over `String` / `List Char`, filesystem
reads are threaded as explicit parameters, and filesystem writes are
returned as explicit `(path, content)` lists.  Node's `path` module
(`resolve`, `join`, `relative`, `dirname`) is modelled for POSIX
separators, which is what the sources themselves assume after their
`replace(/\\/g, "/")` normalisations.
-/

set_option maxRecDepth 20000

/-! ## Basic character-list utilities (models of JS string primitives) -/

/-- Boolean list-prefix test (model of `String.prototype.startsWith` on
character lists). -/
def listIsPrefix : List Char → List Char → Bool
  | [], _ => true
  | _ :: _, [] => false
  | a :: as, b :: bs => a = b && listIsPrefix as bs

/-- Model of JS `a.startsWith(b)`. -/
def jsStartsWith (a b : String) : Bool :=
  listIsPrefix b.data a.data

/-- Boolean list-suffix test (model of `String.prototype.endsWith`). -/
def jsEndsWith (a b : String) : Bool :=
  listIsPrefix b.data.reverse a.data.reverse

/-- Model of JS `s.length` (all embedded strings are ASCII, so UTF-16
units coincide with characters). -/
def jsLength (s : String) : Nat := s.data.length

/-- Model of JS `s.slice(n)` for a non-negative `n`. -/
def jsDrop (s : String) (n : Nat) : String := ⟨s.data.drop n⟩

/-- Model of JS `s.slice(0, n)` for a non-negative `n`. -/
def jsTake (s : String) (n : Nat) : String := ⟨s.data.take n⟩

/-- JS whitespace class `\s` (the characters that occur in source files). -/
def isJsWs (c : Char) : Bool :=
  c = ' ' || c = '\t' || c = '\n' || c = '\r'

/-- JS word-character class `\w`. -/
def isWordCh (c : Char) : Bool :=
  c.isAlphanum || c = '_'

/-- Model of JS `s.trim()`. -/
def jsTrim (s : String) : String :=
  ⟨((s.data.dropWhile isJsWs).reverse.dropWhile isJsWs).reverse⟩

/-- Substring test used to model JS `s.includes(t)`. -/
def listContainsSeg (needle : List Char) : List Char → Bool
  | [] => listIsPrefix needle []
  | c :: cs => listIsPrefix needle (c :: cs) || listContainsSeg needle cs

/-- Model of JS `s.includes(t)`. -/
def jsIncludes (s t : String) : Bool :=
  listContainsSeg t.data s.data

/-- `b` occurs as a contiguous substring of `a` (propositional form used in
statements; witnessed by an explicit decomposition). -/
def isSubstrOf (b a : String) : Prop :=
  ∃ p s : String, a = p ++ b ++ s

/-- Helper for `charSplit`: accumulates the current segment (reversed). -/
def charSplitAux (sep : Char) : List Char → List Char → List (List Char)
  | [], cur => [cur.reverse]
  | c :: cs, cur =>
    if c = sep then cur.reverse :: charSplitAux sep cs []
    else charSplitAux sep cs (c :: cur)

/-- Split a character list on a separator character (model of JS
`s.split(sep)` for a one-character separator). -/
def charSplit (sep : Char) (l : List Char) : List (List Char) :=
  charSplitAux sep l []

/-- Interleave `'/'` between segments (inverse of `charSplit '/'`). -/
def intercalateChars : List (List Char) → List Char
  | [] => []
  | [s] => s
  | s :: rest => s ++ '/' :: intercalateChars rest

/-- Model of JS `s.replace(c, rep)` with a one-character string pattern:
replaces only the first occurrence. -/
def replaceFirstCharAux (c : Char) (rep : List Char) : List Char → List Char
  | [] => []
  | x :: xs => if x = c then rep ++ xs else x :: replaceFirstCharAux c rep xs

/-- Model of JS `s.replace("*", rep)` and friends (single-character string
pattern, first occurrence only). -/
def replaceFirstChar (s : String) (c : Char) (rep : String) : String :=
  ⟨replaceFirstCharAux c rep.data s.data⟩

/-- Model of JS `s.replace(/\\/g, "/")`: every backslash becomes a slash. -/
def mapSlash (s : String) : String :=
  ⟨s.data.map fun ch => if ch = '\\' then '/' else ch⟩

/-- No backslash occurs in the character list (all paths in this
development are POSIX). -/
def noBS (l : List Char) : Bool := l.all fun ch => ch ≠ '\\'

/-! ## POSIX path model (Node `path` on forward-slash paths) -/

/-- Split a path string into raw segments. -/
def splitSegs (s : String) : List (List Char) := charSplit '/' s.data

/-- One step of path normalisation: drop empty and `.` segments, let `..`
pop the previous segment (absolute-path semantics: `..` at the root is
dropped). -/
def normStep (acc : List (List Char)) (seg : List Char) : List (List Char) :=
  if seg = [] || seg = ['.'] then acc
  else if seg = ['.', '.'] then acc.dropLast
  else acc ++ [seg]

/-- Normalise the segments of an absolute path. -/
def normSegs (segs : List (List Char)) : List (List Char) :=
  segs.foldl normStep []

/-- Render normalised segments as an absolute path string. -/
def renderAbs (segs : List (List Char)) : String :=
  ⟨'/' :: intercalateChars segs⟩

/-- Normalisation step for relative paths: leading `..` segments are kept
(Node `path.normalize` semantics for relative inputs). -/
def normStepRel (acc : List (List Char)) (seg : List Char) : List (List Char) :=
  if seg = [] || seg = ['.'] then acc
  else if seg = ['.', '.'] then
    if acc = [] || acc.getLast? = some ['.', '.'] then acc ++ [seg]
    else acc.dropLast
  else acc ++ [seg]

/-- Render normalised segments as a relative path string (`"."` when
empty, matching Node). -/
def renderRel (segs : List (List Char)) : String :=
  if segs = [] then "." else ⟨intercalateChars segs⟩

/-- Model of Node `path.resolve(base, p)` where `base` is an absolute
path (every call site in the sources passes an absolute base). -/
def pathResolve (base p : String) : String :=
  if jsStartsWith p "/" then renderAbs (normSegs (splitSegs p))
  else renderAbs (normSegs (splitSegs (base ++ "/" ++ p)))

/-- Model of Node `path.join(a, b)`. -/
def pathJoin (a b : String) : String :=
  if jsStartsWith a "/" then renderAbs (normSegs (splitSegs (a ++ "/" ++ b)))
  else renderRel (splitSegs (a ++ "/" ++ b) |>.foldl normStepRel [])

/-- Model of Node's variadic `path.join(a, b, c)`. -/
def pathJoin3 (a b c : String) : String :=
  pathJoin a (b ++ "/" ++ c)

/-- Model of Node's variadic `path.join(a, b, c, d)`. -/
def pathJoin4 (a b c d : String) : String :=
  pathJoin a (b ++ "/" ++ c ++ "/" ++ d)

/-- Model of Node `path.dirname` on a normalised absolute path. -/
def dirname (p : String) : String :=
  renderAbs ((normSegs (splitSegs p)).dropLast)

/-- Drop the longest common prefix of two segment lists. -/
def dropCommon : List (List Char) → List (List Char) →
    List (List Char) × List (List Char)
  | [], t => ([], t)
  | f, [] => (f, [])
  | f :: fs, t :: ts =>
    if f = t then dropCommon fs ts else (f :: fs, t :: ts)

/-- Model of Node `path.relative(fromP, toP)` for absolute arguments. -/
def pathRelative (fromP toP : String) : String :=
  let f := normSegs (splitSegs fromP)
  let t := normSegs (splitSegs toP)
  let pr := dropCommon f t
  ⟨intercalateChars (pr.1.map (fun _ => ['.', '.']) ++ pr.2)⟩

/-! ## Anchored glob matching

`resolvePathAlias` builds `new RegExp("^" + pattern.replace(/\*/g, "(.*)") + "$")`
and reads `match[1]`: every `*` becomes a greedy `(.*)` group.  `matchStars`
models that anchored regex on the pieces `pattern.split("*")`: each gap
between consecutive literal pieces is one greedy capture group, tried
longest-first exactly as the backtracking regex engine does. -/

/-- Greedy anchored matching of `parts` (the star-split pieces of a glob
pattern) against `s`; returns the list of captured groups. -/
def matchStars : List (List Char) → List Char → Option (List (List Char))
  | [], _ => none
  | [p], s => if s = p then some [] else none
  | p :: q :: rest, s =>
    if listIsPrefix p s then
      let t := s.drop p.length
      (List.range (t.length + 1)).reverse.findSome? fun k =>
        (matchStars (q :: rest) (t.drop k)).map fun caps => t.take k :: caps
    else none

/-- First-`some` scan of a list (models a JS `for … of` loop whose body
either `continue`s or `return`s). -/
def firstSome : List α → (α → Option β) → Option β
  | [], _ => none
  | a :: as, f =>
    match f a with
    | some b => some b
    | none => firstSome as f

/-! ## PathResolver (src/scanner.ts lines 12-215)

`TsconfigPaths` mirrors the parsed `tsconfig.json` shape: an optional
`baseUrl` and the `paths` record.  JS object iteration order is the
insertion order of the string keys, so `paths` is an ordered association
list. -/

/-- Parsed tsconfig paths configuration (`interface TsconfigPaths`). -/
structure TsconfigPaths where
  baseUrl : Option String
  paths : List (String × List String)
deriving DecidableEq

/-- One loop iteration of `resolvePathAlias`: try a single
`(pattern, mappings)` entry against the import path ( `continue` is
`none`). -/
def resolveAliasStep (absoluteBaseUrl importPath : String)
    (pr : String × List String) : Option String :=
  match matchStars (charSplit '*' pr.1.data) importPath.data with
  | none => none
  | some caps =>
    match pr.2.head? with
    | none => none
    | some mapping =>
      if mapping = "" then none
      else
        let captured : String := ⟨caps.head?.getD []⟩
        some (pathResolve absoluteBaseUrl (replaceFirstChar mapping '*' captured))

/-- `resolvePathAlias(importPath, workingDir, tsconfigPaths)` from
src/scanner.ts: resolve a path alias to an absolute path, first matching
pattern wins, `null` (here `none`) when nothing matches. -/
def resolvePathAlias (importPath workingDir : String)
    (tsconfigPaths : TsconfigPaths) : Option String :=
  let absoluteBaseUrl := pathResolve workingDir (tsconfigPaths.baseUrl.getD ".")
  firstSome tsconfigPaths.paths (resolveAliasStep absoluteBaseUrl importPath)

/-- One loop iteration of `absolutePathToAlias`: containment test of the
normalised path in one pattern's first mapping base. -/
def toAliasStep (absoluteBaseUrl normalizedPath : String)
    (pr : String × List String) : Option String :=
  match pr.2.head? with
  | none => none
  | some mapping =>
    if mapping = "" then none
    else
      let mappingBase := replaceFirstChar mapping '*' ""
      let absoluteMappingBase := mapSlash (pathResolve absoluteBaseUrl mappingBase)
      if jsStartsWith normalizedPath absoluteMappingBase then
        some (replaceFirstChar pr.1 '*' "" ++
          jsDrop normalizedPath (jsLength absoluteMappingBase))
      else none

/-- `absolutePathToAlias(absolutePath, workingDir, tsconfigPaths)` from
src/scanner.ts: convert an absolute path back to an alias import, first
containing pattern wins. -/
def absolutePathToAlias (absolutePath workingDir : String)
    (tsconfigPaths : TsconfigPaths) : Option String :=
  let absoluteBaseUrl := pathResolve workingDir (tsconfigPaths.baseUrl.getD ".")
  let normalizedPath := mapSlash absolutePath
  firstSome tsconfigPaths.paths (toAliasStep absoluteBaseUrl normalizedPath)

/-- `isPathAlias(importPath, tsconfigPaths)` from src/scanner.ts. -/
def isPathAlias (importPath : String) (tsconfigPaths : TsconfigPaths) : Bool :=
  if jsStartsWith importPath "." then false
  else if tsconfigPaths.paths.any
      (fun pr => (matchStars (charSplit '*' pr.1.data) importPath.data).isSome) then
    true
  else
    ["@/", "~/", "#/", "src/"].any fun a => jsStartsWith importPath a

/-! ## Parsing helpers for the concrete regexes of the sources

Each regex in scanner.ts / loader.cjs is a fixed pattern; it is modelled
by a hand-written matcher with the same backtracking semantics, anchored
at a position, together with a leftmost / global scan driver. -/

/-- Consume an exact literal. -/
def pLit (pat s : List Char) : Option (List Char) :=
  if listIsPrefix pat s then some (s.drop pat.length) else none

/-- Consume `\s*`. -/
def pWs (s : List Char) : List Char := s.dropWhile isJsWs

/-- Consume `\s+` (at least one whitespace character). -/
def pWs1 (s : List Char) : Option (List Char) :=
  let r := s.dropWhile isJsWs
  if r.length < s.length then some r else none

/-- Consume `\w+` greedily, returning the word and the rest. -/
def pWord (s : List Char) : Option (List Char × List Char) :=
  let w := s.takeWhile isWordCh
  if w = [] then none else some (w, s.drop w.length)

/-- Consume one exact character. -/
def pCh (c : Char) : List Char → Option (List Char)
  | [] => none
  | x :: xs => if x = c then some xs else none

/-- The apostrophe character (JS single-quote). -/
def sqCh : Char := Char.ofNat 39

/-- Consume one quote character, i.e. the regex class `["']`. -/
def pQuote : List Char → Option (List Char)
  | [] => none
  | x :: xs => if x = '"' || x = sqCh then some xs else none

/-- Does a predicate on positions hold somewhere in the list (models an
unanchored regex `test`)? -/
def anyPos (f : List Char → Bool) : List Char → Bool
  | [] => f []
  | c :: cs => f (c :: cs) || anyPos f cs

/-- Global-regex driver: scan left to right, collect every match, resume
after the end of each match (models `while ((m = re.exec(s)) !== null)`
with a `/g` regex). -/
def globalScanAux (m : List Char → Option (α × Nat)) : Nat → List Char → List α
  | 0, _ => []
  | _, [] => []
  | fuel + 1, c :: cs =>
    match m (c :: cs) with
    | some (a, k) => a :: globalScanAux m fuel ((c :: cs).drop (max k 1))
    | none => globalScanAux m fuel cs

/-- Collect all matches of an anchored matcher over a string. -/
def globalScan (m : List Char → Option (α × Nat)) (s : List Char) : List α :=
  globalScanAux m s.length s

/-- JS-object / `Map.set` model: replace the value at an existing key in
place, otherwise append a new entry. -/
def objSet (m : List (String × α)) (k : String) (v : α) : List (String × α) :=
  match m with
  | [] => [(k, v)]
  | (k0, v0) :: rest => if k0 = k then (k0, v) :: rest else (k0, v0) :: objSet rest k v

/-- `Map.get` model. -/
def objGet (m : List (String × α)) (k : String) : Option α :=
  firstSome m fun pr => if pr.1 = k then some pr.2 else none

/-! ## Scanner (src/scanner.ts lines 217-385) -/

/-- `interface CronStartCall` from src/scanner.ts. -/
structure CronStartCall where
  workflowFunctionName : String
  importPath : String
  sourceFile : String
deriving DecidableEq

/-- Matcher for the import-check regex
`/import\s*\{[^}]*cronStart[^}]*\}\s*from\s*["']workflow-cron-start["']/`
anchored at a position: the bracket body is the maximal brace-free span
and must contain `cronStart`. -/
def matchCronImportAt (s : List Char) : Bool :=
  (do
    let r ← pLit "import".data s
    let r := pWs r
    let r ← pCh '{' r
    let span := r.takeWhile (· ≠ '}')
    let r ← pCh '}' (r.drop span.length)
    if ¬ listContainsSeg "cronStart".data span then none else
    let r := pWs r
    let r ← pLit "from".data r
    let r := pWs r
    let r ← pQuote r
    let r ← pLit "workflow-cron-start".data r
    let _ ← pQuote r
    some ()).isSome

/-- `cronStartImportRegex.test(source)`: the import-check regex matches
somewhere in the source. -/
def testCronImport (source : String) : Bool :=
  anyPos matchCronImportAt source.data

/-- Matcher for `/cronStart\s*\(\s*(\w+)\s*,/g` anchored at a position:
returns the captured identifier and the matched length. -/
def matchCronCallNameAt (s : List Char) : Option (String × Nat) := do
  let r ← pLit "cronStart".data s
  let r := pWs r
  let r ← pCh '(' r
  let r := pWs r
  let w ← pWord r
  let r := pWs w.2
  let r ← pCh ',' r
  some (⟨w.1⟩, s.length - r.length)

/-- Matcher for the named-import regex
`/import\s*\{([^}]+)\}\s*from\s*["']([^"']+)["']/g` anchored at a
position: returns `(brace body, module specifier)` and the matched
length. -/
def matchNamedImportAt (s : List Char) : Option ((String × String) × Nat) := do
  let r ← pLit "import".data s
  let r := pWs r
  let r ← pCh '{' r
  let span := r.takeWhile (· ≠ '}')
  if span = [] then none else
  let r ← pCh '}' (r.drop span.length)
  let r := pWs r
  let r ← pLit "from".data r
  let r := pWs r
  let r ← pQuote r
  let path := r.takeWhile fun c => ¬ (c = '"' || c = sqCh)
  if path = [] then none else
  let r ← pQuote (r.drop path.length)
  some ((⟨span⟩, ⟨path⟩), s.length - r.length)

/-- Matcher for the default-import regex
`/import\s+(\w+)\s+from\s*["']([^"']+)["']/g` anchored at a position:
returns `(identifier, module specifier, matched-text-contains-brace)`
and the matched length. -/
def matchDefaultImportAt (s : List Char) :
    Option ((String × String × Bool) × Nat) := do
  let r ← pLit "import".data s
  let r ← pWs1 r
  let w ← pWord r
  let r ← pWs1 w.2
  let r ← pLit "from".data r
  let r := pWs r
  let r ← pQuote r
  let path := r.takeWhile fun c => ¬ (c = '"' || c = sqCh)
  if path = [] then none else
  let r ← pQuote (r.drop path.length)
  some ((⟨w.1⟩, ⟨path⟩, path.contains '{'), s.length - r.length)

/-- Matcher for the rename regex `/(\w+)\s+as\s+(\w+)/` anchored at a
position. -/
def matchAsAt (s : List Char) : Option (String × String) := do
  let w1 ← pWord s
  let r ← pWs1 w1.2
  let r ← pLit "as".data r
  let r ← pWs1 r
  let w2 ← pWord r
  some (⟨w1.1⟩, ⟨w2.1⟩)

/-- Unanchored search with the rename regex (models
`part.match(/(\w+)\s+as\s+(\w+)/)`). -/
def searchAs : List Char → Option (String × String)
  | [] => none
  | c :: cs =>
    match matchAsAt (c :: cs) with
    | some x => some x
    | none => searchAs cs

/-- `buildImportMap(source)` from src/scanner.ts: named imports (with
`as` renames, comma lists) first, then default imports. -/
def buildImportMap (source : String) : List (String × String) :=
  let named := globalScan matchNamedImportAt source.data
  let m := named.foldl
    (fun m pr =>
      let importParts := (charSplit ',' pr.1.data).map fun p => jsTrim ⟨p⟩
      importParts.foldl
        (fun m part =>
          if part = "" then m
          else
            match searchAs part.data with
            | some asM => objSet m asM.2 pr.2
            | none =>
              let cleanName := jsTrim part
              if cleanName = "" then m else objSet m cleanName pr.2)
        m)
    []
  let dflt := globalScan matchDefaultImportAt source.data
  dflt.foldl
    (fun m entry => if entry.2.2 then m else objSet m entry.1 entry.2.1) m

/-- Strip a recognised source extension, modelling
`.replace(/\.(ts|tsx|js|jsx|mts|mjs)$/, "")`. -/
def stripSrcExt (s : String) : String :=
  match firstSome ["ts", "tsx", "js", "jsx", "mts", "mjs"]
      (fun ext => if jsEndsWith s ("." ++ ext) then some ext else none) with
  | some ext => jsTake s (jsLength s - (jsLength ext + 1))
  | none => s

/-- `extractCronStartCallsFromSource(source, sourceFile)` from
src/scanner.ts. -/
def extractCronStartCallsFromSource (source sourceFile : String) :
    List CronStartCall :=
  if ¬ jsIncludes source "cronStart" then []
  else if ¬ testCronImport source then []
  else
    let importMap := buildImportMap source
    (globalScan matchCronCallNameAt source.data).map fun name =>
      match objGet importMap name with
      | some p => ⟨name, p, sourceFile⟩
      | none =>
        ⟨name,
          "./" ++ stripSrcExt (mapSlash (pathRelative (dirname sourceFile) sourceFile)),
          sourceFile⟩

/-- `deduplicateCalls(calls)` from src/scanner.ts: keep the first call
for each `name:importPath` key. -/
def deduplicateCalls (calls : List CronStartCall) : List CronStartCall :=
  (calls.foldl
    (fun st call =>
      let key := call.workflowFunctionName ++ ":" ++ call.importPath
      if st.1.contains key then st else (st.1 ++ [key], st.2 ++ [call]))
    (([] : List String), ([] : List CronStartCall))).2

/-- `scanForCronStartCalls(files, workingDir)` from src/scanner.ts; a
file is `(path, some content)` when readable and `(path, none)` when the
read fails (such files are skipped). -/
def scanForCronStartCalls (files : List (String × Option String))
    (_workingDir : String) : List CronStartCall :=
  deduplicateCalls <| files.flatMap fun f =>
    match f.2 with
    | none => []
    | some content => extractCronStartCallsFromSource content f.1

/-! ## Generator (src/generator.ts, current version: lines 463-864)

Filesystem reads (`existsSync`) are threaded as an oracle `FsE`;
filesystem writes are returned as ordered `(path, content)` lists. -/

/-- Filesystem-existence oracle (model of `existsSync`). -/
def FsE : Type := String → Bool

/-- `CRON_WRAPPER_DIR_NAME` from src/generator.ts. -/
def CRON_WRAPPER_DIR_NAME : String := "cron-wrappers"

/-- `getCronWrapperDir(workingDir)` from src/generator.ts: prefer
`src/app`, then `app`, falling back to `src/app`. -/
def getCronWrapperDir (fs : FsE) (workingDir : String) : String :=
  let srcAppDir := pathJoin3 workingDir "src" "app"
  if fs srcAppDir then pathJoin srcAppDir CRON_WRAPPER_DIR_NAME
  else
    let appDir := pathJoin workingDir "app"
    if fs appDir then pathJoin appDir CRON_WRAPPER_DIR_NAME
    else pathJoin srcAppDir CRON_WRAPPER_DIR_NAME

/-- `interface WrapperInfo` from src/generator.ts. -/
structure WrapperInfo where
  wrapperName : String
  triggerDirName : String
  workflowFilePath : String
deriving DecidableEq

/-- `calculateRelativeImport` (src/generator.ts lines 649-685): hybrid
alias / relative import-path selection for a generated file. The JS
test `if (aliasImport)` is a truthiness check: both `null` and the
empty string are falsy, so the alias is used only when it is a
nonempty string (`Option.getD ""` conflates the two falsy cases, which
the code never distinguishes). -/
def calculateRelativeImport (generatedFilePath originalImportPath
    sourceFile workingDir : String) (tsconfigPaths : TsconfigPaths) : String :=
  let generatedDir := dirname generatedFilePath
  if isPathAlias originalImportPath tsconfigPaths then
    originalImportPath
  else if jsStartsWith originalImportPath "." then
    let sourceDir := dirname sourceFile
    let absoluteTarget := pathResolve sourceDir originalImportPath
    let aliasImport := (absolutePathToAlias absoluteTarget workingDir
      tsconfigPaths).getD ""
    if aliasImport ≠ "" then aliasImport
    else
      let relativePath := mapSlash (pathRelative generatedDir absoluteTarget)
      if ¬ jsStartsWith relativePath "." then "./" ++ relativePath
      else relativePath
  else originalImportPath

/-- The part of the `generateCronWorkflowContent` template before its
`export async function ` marker. -/
def cronWorkflowBeforeExport (workflowFunctionName triggerStepName
    importPath : String) : String :=
  "/**\n * Auto-generated cron scheduler for " ++ workflowFunctionName ++
  "\n * DO NOT EDIT - This file is generated by workflow-cron-start\n * \n * This workflow runs in an infinite loop:\n * 1. Sleep until the next cron trigger time\n * 2. Call start() directly from a step to create a new workflow run\n * 3. Repeat\n * \n * Each trigger creates a SEPARATE workflow run with its own runId.\n */\n\nimport \x7b cronSleep \x7d from \"workflow-cron-sleep\"\n\n/**\n * Cron configuration passed to the scheduler workflow\n */\ninterface CronSchedulerConfig \x7b\n    args: unknown[]\n    cron: string\n    timezone?: string\n    onError?: \"continue\" | \"stop\"\n\x7d\n\n/**\n * Step that starts a new workflow run directly.\n * Steps run in Node.js (not the workflow sandbox), so they can call start().\n */\nasync function " ++
  triggerStepName ++
  "(\n    args: unknown[]\n): Promise<\x7b runId: string \x7d> \x7b\n    \"use step\"\n    \n    // Dynamic imports inside step to avoid sandbox restrictions\n    const \x7b start \x7d = await import(\"workflow/api\")\n    const \x7b " ++
  workflowFunctionName ++
  " \x7d = await import(\"" ++
  importPath ++
  "\")\n    \n    // Start a NEW workflow run\n    const run = await start(" ++
  workflowFunctionName ++
  ", args)\n    \n    console.log(`[workflow-cron-start] Started " ++
  workflowFunctionName ++
  " run: $\x7brun.runId\x7d`)\n    \n    return \x7b runId: run.runId \x7d\n\x7d\n\n/**\n * Cron scheduler workflow for " ++
  workflowFunctionName ++
  "\n * \n * This workflow runs forever, sleeping until each cron trigger\n * and then starting a new run of the actual workflow.\n */\n"

/-- The part of the `generateCronWorkflowContent` template after the
wrapper identifier of its export line. -/
def cronWorkflowAfterName (workflowFunctionName triggerStepName : String) :
    String :=
  "(config: CronSchedulerConfig) \x7b\n    \"use workflow\"\n    \n    const \x7b args, cron, timezone, onError = \"continue\" \x7d = config\n    \n    console.log(`[workflow-cron-start] Cron scheduler started for " ++
  workflowFunctionName ++
  "`)\n    console.log(`[workflow-cron-start] Schedule: $\x7bcron\x7d, Timezone: $\x7btimezone || \"UTC\"\x7d`)\n    \n    while (true) \x7b\n        // Sleep until the next cron trigger\n        await cronSleep(cron, \x7b timezone \x7d)\n        \n        try \x7b\n            // Start a new workflow run directly from the step\n            const result = await " ++
  triggerStepName ++
  "(args)\n            console.log(`[workflow-cron-start] Triggered " ++
  workflowFunctionName ++
  ": $\x7bresult.runId\x7d`)\n        \x7d catch (error) \x7b\n            if (onError === \"stop\") \x7b\n                console.error(\"[workflow-cron-start] Trigger failed, stopping:\", error)\n                throw error\n            \x7d\n            console.error(\"[workflow-cron-start] Trigger failed, continuing:\", error)\n        \x7d\n    \x7d\n\x7d\n"

/-- `generateCronWorkflowContent(wrapperName, workflowFunctionName,
importPath)` from src/generator.ts (lines 691-775): the synthesized
scheduler module's full text, assembled around the
`export async function ${wrapperName}` line. -/
def generateCronWorkflowContent (wrapperName workflowFunctionName
    importPath : String) : String :=
  let triggerStepName := "__trigger_" ++ workflowFunctionName ++ "__"
  cronWorkflowBeforeExport workflowFunctionName triggerStepName importPath ++
  "export async function " ++ wrapperName ++
  cronWorkflowAfterName workflowFunctionName triggerStepName

/-- `generateWrapperDirectory(call, cronDir, workingDir, tsconfigPaths)`
from src/generator.ts (lines 600-637): derives the wrapper identifier
and directory from the function name and writes `workflow.ts`. -/
def generateWrapperDirectory (call : CronStartCall)
    (cronDir workingDir : String) (tsconfigPaths : TsconfigPaths) :
    WrapperInfo × List (String × String) :=
  let wrapperName := "__cron__" ++ call.workflowFunctionName
  let triggerDirName := "trigger-" ++ call.workflowFunctionName
  let wrapperDir := pathJoin cronDir triggerDirName
  let workflowFilePath := pathJoin wrapperDir "workflow.ts"
  let relativeImportPath := calculateRelativeImport workflowFilePath
    call.importPath call.sourceFile workingDir tsconfigPaths
  let workflowContent := generateCronWorkflowContent wrapperName
    call.workflowFunctionName relativeImportPath
  (⟨wrapperName, triggerDirName, workflowFilePath⟩,
    [(workflowFilePath, workflowContent)])

/-- Grouping step of `generateWrapperFiles`: the
`uniqueWorkflows : Map<string, CronStartCall>` built with key
`` `${call.workflowFunctionName}:${call.importPath}` ``, iterated in
insertion order. -/
def uniqueWorkflows (calls : List CronStartCall) : List CronStartCall :=
  (calls.foldl
    (fun st call =>
      let key := call.workflowFunctionName ++ ":" ++ call.importPath
      if st.1.contains key then st else (st.1 ++ [key], st.2 ++ [call]))
    (([] : List String), ([] : List CronStartCall))).2

/-- One manifest value: the object
`{ wrapperName: info.wrapperName, triggerDir: info.triggerDirName }`
written by `generateManifest` (src/generator.ts lines 780-797). -/
structure ManifestEntry where
  wrapperName : String
  triggerDir : String
deriving DecidableEq

/-- `info.wrapperName.replace(/^__cron__/, "")`: strip the anchored
wrapper tag. -/
def stripCronTag (s : String) : String :=
  if jsStartsWith s "__cron__" then jsDrop s (jsLength "__cron__") else s

/-- `generateManifest(wrapperInfos, cronDir)` from src/generator.ts
(lines 780-797), as the mapping object it serialises. -/
def generateManifest (wrapperInfos : List WrapperInfo) :
    List (String × ManifestEntry) :=
  wrapperInfos.foldl
    (fun manifest info =>
      let workflowName := stripCronTag info.wrapperName
      objSet manifest workflowName ⟨info.wrapperName, info.triggerDirName⟩)
    []

/-- `JSON.stringify(manifest, null, 2)` for the manifest shape. -/
def manifestJson (m : List (String × ManifestEntry)) : String :=
  if m = [] then "\x7b\x7d"
  else
    "\x7b\n" ++
    String.intercalate ",\n"
      (m.map fun kv =>
        "  \"" ++ kv.1 ++ "\": \x7b\n    \"wrapperName\": \"" ++
        kv.2.wrapperName ++ "\",\n    \"triggerDir\": \"" ++
        kv.2.triggerDir ++ "\"\n  \x7d") ++
    "\n\x7d"

/-- `generateDiscoveryRoute(wrapperInfos, cronDir)` from
src/generator.ts (lines 803-839): the aggregator module text. -/
def generateDiscoveryRoute (wrapperInfos : List WrapperInfo) : String :=
  let imports := wrapperInfos.map fun info =>
    "import \x7b " ++ info.wrapperName ++ " \x7d from \"./" ++
    info.triggerDirName ++ "/workflow\""
  let exps := wrapperInfos.map (·.wrapperName)
  "/**\n * Auto-generated discovery route for workflow-cron-start\n * DO NOT EDIT - This file is generated by workflow-cron-start\n * \n * This file imports all cron scheduler workflows so the Workflow SDK\n * discovers them during the build phase.\n */\n\n" ++
  String.intercalate "\n" imports ++
  "\n\n// Re-export schedulers for SDK discovery\nexport \x7b " ++
  String.intercalate ", " exps ++
  " \x7d\n\n// Discovery endpoint\nexport async function GET() \x7b\n    return Response.json(\x7b\n        message: \"workflow-cron-start discovery endpoint\",\n        schedulers: [" ++
  String.intercalate ", " (exps.map fun e => "\"" ++ e ++ "\"") ++
  "]\n    \x7d)\n\x7d\n"

/-- Result of `generateWrapperFiles`, extended with the manifest mapping
and the ordered list of file writes the generation pass performs. -/
structure GeneratorResult where
  generatedFiles : List String
  wrapperMap : List (String × String)
  manifest : List (String × ManifestEntry)
  writes : List (String × String)
deriving DecidableEq

/-- `generateWrapperFiles(calls, workingDir)` from src/generator.ts
(lines 547-595): delete/recreate the container, group call sites by
`name:origin`, generate one wrapper directory per group, then write the
manifest and the discovery route.  `tsconfigPaths` stands for the result
of `readTsconfigPaths(workingDir)`. -/
def generateWrapperFiles (calls : List CronStartCall) (fs : FsE)
    (workingDir : String) (tsconfigPaths : TsconfigPaths) : GeneratorResult :=
  let cronDir := getCronWrapperDir fs workingDir
  let uw := uniqueWorkflows calls
  let results := uw.map fun call =>
    (call, generateWrapperDirectory call cronDir workingDir tsconfigPaths)
  let wrapperInfos := results.map fun r => r.2.1
  let generatedFiles := wrapperInfos.map (·.workflowFilePath)
  let wrapperMap := results.foldl
    (fun m r => objSet m r.1.workflowFunctionName r.2.1.wrapperName) []
  let manifest := generateManifest wrapperInfos
  { generatedFiles := generatedFiles
    wrapperMap := wrapperMap
    manifest := manifest
    writes :=
      (pathJoin cronDir ".gitignore", "*\n") ::
      results.flatMap (fun r => r.2.2) ++
      [(pathJoin cronDir "manifest.json", manifestJson manifest),
       (pathJoin cronDir "route.ts", generateDiscoveryRoute wrapperInfos)] }

/-! ## Transformer (loader.cjs, the registered build-time rewriter) -/

/-- `getCronWrapperDir(workingDir)` from loader.cjs: unlike the
Generator's version, it probes for the `cron-wrappers` directory itself. -/
def loaderGetCronWrapperDir (fs : FsE) (workingDir : String) : String :=
  let srcAppDir := pathJoin4 workingDir "src" "app" "cron-wrappers"
  if fs srcAppDir then srcAppDir
  else
    let appDir := pathJoin3 workingDir "app" "cron-wrappers"
    if fs appDir then appDir
    else srcAppDir

/-- One extracted `cronStart()` call site of the loader
(`extractCronStartCalls` result element). -/
structure LoaderCall where
  workflowName : String
  argsNode : String
  optionsNode : String
  originalCall : String
deriving DecidableEq

/-- `(\[[^\]]*\]|\w+)`: an array literal (single bracket level) or an
identifier. -/
def pArrOrWord : List Char → Option (List Char × List Char)
  | [] => none
  | c :: cs =>
    if c = '[' then
      let span := cs.takeWhile (· ≠ ']')
      match pCh ']' (cs.drop span.length) with
      | some r => some ('[' :: span ++ [']'], r)
      | none => none
    else pWord (c :: cs)

/-- `(\{[^}]*\}|\w+)`: an object literal (single brace level) or an
identifier. -/
def pObjOrWord : List Char → Option (List Char × List Char)
  | [] => none
  | c :: cs =>
    if c = '{' then
      let span := cs.takeWhile (· ≠ '}')
      match pCh '}' (cs.drop span.length) with
      | some r => some ('{' :: span ++ ['}'], r)
      | none => none
    else pWord (c :: cs)

/-- Matcher for the loader's call pattern
`/cronStart\s*\(\s*(\w+)\s*,\s*(\[[^\]]*\]|\w+)\s*,\s*(\{[^}]*\}|\w+)\s*\)/g`
anchored at a position. -/
def matchLoaderCallAt (s : List Char) : Option (LoaderCall × Nat) := do
  let r ← pLit "cronStart".data s
  let r := pWs r
  let r ← pCh '(' r
  let r := pWs r
  let w ← pWord r
  let r := pWs w.2
  let r ← pCh ',' r
  let r := pWs r
  let ar ← pArrOrWord r
  let r := pWs ar.2
  let r ← pCh ',' r
  let r := pWs r
  let ob ← pObjOrWord r
  let r := pWs ob.2
  let r ← pCh ')' r
  let consumed := s.length - r.length
  some (⟨⟨w.1⟩, ⟨ar.1⟩, ⟨ob.1⟩, ⟨s.take consumed⟩⟩, consumed)

/-- `extractCronStartCalls(source)` from loader.cjs. -/
def extractCronStartCalls (source : String) : List LoaderCall :=
  globalScan matchLoaderCallAt source.data

/-- Shared tail of the import-removal regexes:
`\s*from\s*["']workflow-cron-start["']`. -/
def pFromCronPkg (s : List Char) : Option (List Char) := do
  let r := pWs s
  let r ← pLit "from".data r
  let r := pWs r
  let r ← pQuote r
  let r ← pLit "workflow-cron-start".data r
  pQuote r

/-- Consume one optional character (regex `c?`). -/
def pOptCh (c : Char) (s : List Char) : List Char :=
  match s with
  | [] => s
  | x :: xs => if x = c then xs else s

/-- The trailing `\s*;?\n?` of the whole-import removal regexes. -/
def pTrailSemi (s : List Char) : List Char :=
  pOptCh '\n' (pOptCh ';' (pWs s))

/-- Replace-all driver for a `/g` regex replace: leftmost matches,
non-overlapping, resuming after each match. -/
def replaceAllAux (m : List Char → Option (List Char × Nat)) :
    Nat → List Char → List Char
  | 0, l => l
  | _, [] => []
  | fuel + 1, c :: cs =>
    match m (c :: cs) with
    | some (rep, k) => rep ++ replaceAllAux m fuel ((c :: cs).drop (max k 1))
    | none => c :: replaceAllAux m fuel cs

/-- `s.replace(re, template)` for a `/g` regex given an anchored matcher
that already produces the instantiated replacement. -/
def replaceAllWith (m : List Char → Option (List Char × Nat)) (s : String) :
    String :=
  ⟨replaceAllAux m s.data.length s.data⟩

/-- Rule 1 of `updateImports`:
`/import\s*\{\s*cronStart\s*\}\s*from\s*["']workflow-cron-start["']\s*;?\n?/g → ""`. -/
def matchSoloCronImport (s : List Char) : Option (List Char × Nat) := do
  let r ← pLit "import".data s
  let r := pWs r
  let r ← pCh '{' r
  let r := pWs r
  let r ← pLit "cronStart".data r
  let r := pWs r
  let r ← pCh '}' r
  let r ← pFromCronPkg r
  let r := pTrailSemi r
  some ([], s.length - r.length)

/-- Middle piece `,\s*cronStart\s*,` of rule 2. -/
def pMidCron (l : List Char) : Option (List Char) := do
  let r ← pCh ',' l
  let r := pWs r
  let r ← pLit "cronStart".data r
  let r := pWs r
  pCh ',' r

/-- Rule 2 of `updateImports` (middle position):
`/import\s*\{([^}]*),\s*cronStart\s*,([^}]*)\}\s*from\s*["']workflow-cron-start["']/g`
replaced by `import {$1,$2} from "workflow-cron-start"`; the greedy first
group is the longest split of the brace-free span. -/
def matchMiddleCronImport (s : List Char) : Option (List Char × Nat) := do
  let r ← pLit "import".data s
  let r := pWs r
  let r ← pCh '{' r
  let span := r.takeWhile (· ≠ '}')
  let r2 ← pCh '}' (r.drop span.length)
  let pr ← (List.range (span.length + 1)).reverse.findSome? fun i =>
    (pMidCron (span.drop i)).map fun g2 => (span.take i, g2)
  let r3 ← pFromCronPkg r2
  some ("import \x7b".data ++ pr.1 ++ [','] ++ pr.2 ++
    "\x7d from \"workflow-cron-start\"".data, s.length - r3.length)

/-- Trailing piece `,\s*cronStart\s*` reaching the end of the span
(rule 3). -/
def pTailCron (l : List Char) : Option Unit := do
  let r ← pCh ',' l
  let r := pWs r
  let r ← pLit "cronStart".data r
  let r := pWs r
  if r = [] then some () else none

/-- Rule 3 of `updateImports` (trailing position):
`/import\s*\{([^}]*),\s*cronStart\s*\}\s*from\s*["']workflow-cron-start["']/g`
replaced by `import {$1} from "workflow-cron-start"`. -/
def matchTrailingCronImport (s : List Char) : Option (List Char × Nat) := do
  let r ← pLit "import".data s
  let r := pWs r
  let r ← pCh '{' r
  let span := r.takeWhile (· ≠ '}')
  let r2 ← pCh '}' (r.drop span.length)
  let g1 ← (List.range (span.length + 1)).reverse.findSome? fun i =>
    (pTailCron (span.drop i)).map fun _ => span.take i
  let r3 ← pFromCronPkg r2
  some ("import \x7b".data ++ g1 ++ "\x7d from \"workflow-cron-start\"".data,
    s.length - r3.length)

/-- Rule 4 of `updateImports` (leading position):
`/import\s*\{\s*cronStart\s*,([^}]*)\}\s*from\s*["']workflow-cron-start["']/g`
replaced by `import {$1} from "workflow-cron-start"`. -/
def matchLeadingCronImport (s : List Char) : Option (List Char × Nat) := do
  let r ← pLit "import".data s
  let r := pWs r
  let r ← pCh '{' r
  let r := pWs r
  let r ← pLit "cronStart".data r
  let r := pWs r
  let r ← pCh ',' r
  let g1 := r.takeWhile (· ≠ '}')
  let r2 ← pCh '}' (r.drop g1.length)
  let r3 ← pFromCronPkg r2
  some ("import \x7b".data ++ g1 ++ "\x7d from \"workflow-cron-start\"".data,
    s.length - r3.length)

/-- Cleanup rule of `updateImports`:
`/import\s*\{\s*\}\s*from\s*["']workflow-cron-start["']\s*;?\n?/g → ""`. -/
def matchEmptyCronImport (s : List Char) : Option (List Char × Nat) := do
  let r ← pLit "import".data s
  let r := pWs r
  let r ← pCh '{' r
  let r := pWs r
  let r ← pCh '}' r
  let r ← pFromCronPkg r
  let r := pTrailSemi r
  some ([], s.length - r.length)

/-- The import-removal pipeline of `updateImports` (loader.cjs lines
329-349), in source order: solo, middle, trailing, leading, then
empty-brace cleanup. -/
def updateImportsRemoveCron (source : String) : String :=
  let r1 := replaceAllWith matchSoloCronImport source
  let r2 := replaceAllWith matchMiddleCronImport r1
  let r3 := replaceAllWith matchTrailingCronImport r2
  let r4 := replaceAllWith matchLeadingCronImport r3
  replaceAllWith matchEmptyCronImport r4

/-- Word-boundary occurrence of a token (regex `\btoken\b`), tracking
the preceding character. -/
def containsWordTokenAux (w : List Char) : Option Char → List Char → Bool
  | _, [] => false
  | prev, c :: cs =>
    ((match prev with
      | none => true
      | some p => ¬ isWordCh p) &&
     listIsPrefix w (c :: cs) &&
     (match (c :: cs).drop w.length with
      | [] => true
      | d :: _ => ¬ isWordCh d)) ||
    containsWordTokenAux w (some c) cs

/-- `\btoken\b` occurs somewhere in the list. -/
def containsWordToken (w l : List Char) : Bool :=
  containsWordTokenAux w none l

/-- Matcher for
`/import\s*\{[^}]*\bstart\b[^}]*\}\s*from\s*["']workflow\/api["']/`
anchored at a position. -/
def matchStartImportAt (s : List Char) : Bool :=
  (do
    let r ← pLit "import".data s
    let r := pWs r
    let r ← pCh '{' r
    let span := r.takeWhile (· ≠ '}')
    let r ← pCh '}' (r.drop span.length)
    if ¬ containsWordToken "start".data span then none else
    let r := pWs r
    let r ← pLit "from".data r
    let r := pWs r
    let r ← pQuote r
    let r ← pLit "workflow/api".data r
    let _ ← pQuote r
    some ()).isSome

/-- `hasStartImport` test of `updateImports`. -/
def hasStartImport (s : String) : Bool :=
  anyPos matchStartImportAt s.data

/-- The wrapper-module specifier the loader imports for one scheduled
function: the wrapper directory relative to the rewritten file (with a
guaranteed leading `.`), then `/trigger-<name>/workflow`. -/
def loaderWrapperImportPath (resourcePath workingDir : String) (fs : FsE)
    (workflowName : String) : String :=
  let wrapperDir := loaderGetCronWrapperDir fs workingDir
  let resourceDir := dirname resourcePath
  let rel0 := mapSlash (pathRelative resourceDir wrapperDir)
  let relativeToWrapper := if ¬ jsStartsWith rel0 "." then "./" ++ rel0 else rel0
  relativeToWrapper ++ "/" ++ ("trigger-" ++ workflowName) ++ "/workflow"

/-- The full wrapper import statement the loader appends for one call. -/
def loaderWrapperImportStmt (resourcePath workingDir : String) (fs : FsE)
    (workflowName : String) : String :=
  "import \x7b " ++ ("__cron__" ++ workflowName) ++ " \x7d from \"" ++
  loaderWrapperImportPath resourcePath workingDir fs workflowName ++ "\""

/-- The `newImports` list built by `updateImports` (loader.cjs lines
351-383): the task-start import when absent, then one import per unique
wrapper in call order. -/
def updateImportsNewImports (result : String) (calls : List LoaderCall)
    (resourcePath workingDir : String) (fs : FsE) : List String :=
  let base :=
    if hasStartImport result then ([] : List String)
    else ["import \x7b start \x7d from \"workflow/api\""]
  (calls.foldl
    (fun st call =>
      let wrapperName := "__cron__" ++ call.workflowName
      if st.1.contains wrapperName then st
      else
        (st.1 ++ [wrapperName],
         st.2 ++ [loaderWrapperImportStmt resourcePath workingDir fs
           call.workflowName]))
    (([] : List String), base)).2

/-- Per-line model of `/^import\s+.+from\s+["'][^"']+["'];?\s*$/gm` tail
after the `.+`. -/
def matchFromTailLine (l : List Char) : Bool :=
  (do
    let r ← pLit "from".data l
    let r ← pWs1 r
    let r ← pQuote r
    let path := r.takeWhile fun c => ¬ (c = '"' || c = sqCh)
    if path = [] then none else
    let r ← pQuote (r.drop path.length)
    let r := pOptCh ';' r
    let r := pWs r
    if r = [] then some () else none).isSome

/-- A full line matching `/^import\s+.+from\s+["'][^"']+["'];?\s*$/`. -/
def matchImportLine (l : List Char) : Bool :=
  match pLit "import".data l with
  | none => false
  | some r0 =>
    match pWs1 r0 with
    | none => false
    | some r =>
      (List.range (r.length + 1)).any fun i =>
        decide (1 ≤ i) && matchFromTailLine (r.drop i)

/-- Last starting index of `sub` in `l` (model of JS `lastIndexOf`). -/
def lastIndexOfSub (l sub : List Char) : Option Nat :=
  (List.range (l.length + 1)).foldl
    (fun acc i => if listIsPrefix sub (l.drop i) then some i else acc) none

/-- `updateImports(source, calls, resourcePath, workingDir)` from
loader.cjs (lines 325-397): remove the `cronStart` import, then insert
the new imports after the last top-level import line (or at the start).
The insertion-point regex is modelled per line: its `\s*$` is taken to
stop at the line break, which can differ from the JS engine only by one
blank line when a blank line directly follows the last import. -/
def updateImports (source : String) (calls : List LoaderCall)
    (resourcePath workingDir : String) (fs : FsE) : String :=
  let result := updateImportsRemoveCron source
  let newImportsStr :=
    String.intercalate "\n"
      (updateImportsNewImports result calls resourcePath workingDir fs) ++ "\n"
  let lines := (charSplit '\n' result.data).map fun l => (⟨l⟩ : String)
  let matching := lines.filter fun ln => matchImportLine ln.data
  match matching.getLast? with
  | some lastImport =>
    match lastIndexOfSub result.data lastImport.data with
    | some idx =>
      let insertPosition := idx + jsLength lastImport
      jsTake result insertPosition ++ "\n" ++ newImportsStr ++
        jsDrop result insertPosition
    | none => newImportsStr ++ result
  | none => newImportsStr ++ result

/-- First starting index of `sub` in `l` (for JS `replace` with a string
pattern). -/
def firstIndexOfSub (l sub : List Char) : Option Nat :=
  firstSome (List.range (l.length + 1)) fun i =>
    if listIsPrefix sub (l.drop i) then some i else none

/-- JS `s.replace(pat, rep)` with a plain string pattern: first
occurrence only. -/
def replaceFirstSub (s pat rep : String) : String :=
  match firstIndexOfSub s.data pat.data with
  | some i => ⟨s.data.take i ++ rep.data ++ s.data.drop (i + pat.data.length)⟩
  | none => s

/-- `replaceCronStartCalls(source, calls)` from loader.cjs (lines
405-424): replace each extracted call with a `start()` invocation of its
wrapper on the merged configuration object. -/
def replaceCronStartCalls (source : String) (calls : List LoaderCall) : String :=
  calls.foldl
    (fun result call =>
      let wrapperName := "__cron__" ++ call.workflowName
      let mergedOptions :=
        if jsStartsWith call.optionsNode "\x7b" then
          let optionsContent :=
            jsTrim (jsTake (jsDrop call.optionsNode 1)
              (jsLength call.optionsNode - 2))
          "\x7b args: " ++ call.argsNode ++ ", " ++ optionsContent ++ " \x7d"
        else
          "\x7b args: " ++ call.argsNode ++ ", ..." ++ call.optionsNode ++ " \x7d"
      let replacement := "start(" ++ wrapperName ++ ", [" ++ mergedOptions ++ "])"
      replaceFirstSub result call.originalCall replacement)
    source

/-- `transformCronStartCalls(source, resourcePath, workingDir)` from
loader.cjs (lines 433-458): the `(code, transformed)` result. -/
def transformCronStartCalls (source resourcePath workingDir : String)
    (fs : FsE) : String × Bool :=
  if ¬ jsIncludes source "cronStart" then (source, false)
  else if ¬ testCronImport source then (source, false)
  else
    let cronStartCalls := extractCronStartCalls source
    if cronStartCalls = [] then (source, false)
    else
      let t1 := updateImports source cronStartCalls resourcePath workingDir fs
      let t2 := replaceCronStartCalls t1 cronStartCalls
      (t2, true)

/-! ## Public API (src/index.ts) -/

/-- `interface CronOptions` from src/index.ts. -/
structure CronOptions where
  cron : String
  timezone : Option String
  onError : Option String
deriving DecidableEq

/-- `interface CronStartResult` from src/index.ts. -/
structure CronStartResult where
  runId : String
deriving DecidableEq

/-- The apostrophe as a one-character string. -/
def sqS : String := ⟨[sqCh]⟩

/-- The diagnostic message thrown by `cronStart` (src/index.ts lines
121-130). -/
def cronStartNotTransformedMessage : String :=
  "[workflow-cron-start] cronStart() was not transformed at build time.\n\nThis usually means one of the following:\n1. You" ++
  sqS ++
  "re not using withCronWorkflow in your next.config.ts\n2. The build hasn" ++
  sqS ++
  "t run yet (try restarting the dev server)\n3. The loader didn" ++
  sqS ++
  "t process this file\n\nMake sure your next.config.ts looks like:\n\n  import \x7b withCronWorkflow \x7d from " ++
  sqS ++ "workflow-cron-start/next" ++ sqS ++
  "\n  export default withCronWorkflow(\x7b ... \x7d)"

/-- `cronStart(workflow, args, options)` from src/index.ts (lines
114-131): the body is a single unconditional `throw`, modelled as an
`Except.error` carrying the thrown message. -/
def cronStart {α β : Type} (_workflow : α) (_args : List β)
    (_options : CronOptions) : Except String CronStartResult :=
  .error cronStartNotTransformedMessage

/-! ## The synthesized scheduler loop

Shallow embedding of the generated wrapper workflow's body (the template
of `generateCronWorkflowContent`): per wake-up the delegated
`start()` step either succeeds with a run id or fails with an error;
`cronLoopRun` folds the loop over a finite prefix of wake-up outcomes
and reports `some e` exactly when the loop terminates by rethrowing `e`,
and `none` while the loop keeps running. -/

/-- `interface CronSchedulerConfig` from the generated wrapper module. -/
structure CronSchedulerConfig where
  args : List String
  cron : String
  timezone : Option String
  onError : Option String
deriving DecidableEq

/-- The destructuring `const { ..., onError = "continue" } = config` of
the generated wrapper. -/
def effectiveOnError (config : CronSchedulerConfig) : String :=
  config.onError.getD "continue"

/-- Outcome of one delegated `start()` step inside the loop. -/
inductive StartOutcome
  | ok (runId : String)
  | err (e : String)
deriving DecidableEq

/-- The generated `while (true)` body: on success log and continue; on
failure rethrow when `onError === "stop"`, otherwise log and continue to
the next sleep cycle.  Returns the propagated error, if any, over a
finite prefix of iterations. -/
def cronLoopRun (onError : String) : List StartOutcome → Option String
  | [] => none
  | .ok _ :: rest => cronLoopRun onError rest
  | .err e :: rest =>
    if onError = "stop" then some e else cronLoopRun onError rest

/-- The first failing iteration's error, if any. -/
def firstFailure : List StartOutcome → Option String
  | [] => none
  | .ok _ :: rest => firstFailure rest
  | .err e :: _ => some e

/-! ## Library: facts about the split / join / normalisation model -/

theorem charSplitAux_ne_nil (sep : Char) (l cur : List Char) :
    charSplitAux sep l cur ≠ [] := by
  induction l generalizing cur with
  | nil => simp [charSplitAux]
  | cons c cs ih =>
    simp only [charSplitAux]
    split
    · simp
    · exact ih _

theorem charSplitAux_append_sep (sep : Char) (x y cur : List Char) :
    charSplitAux sep (x ++ sep :: y) cur =
      charSplitAux sep x cur ++ charSplit sep y := by
  induction x generalizing cur with
  | nil => simp [charSplitAux, charSplit]
  | cons c cs ih =>
    simp only [List.cons_append, charSplitAux]
    split
    · simp [ih]
    · exact ih _

theorem charSplit_append_sep (sep : Char) (x y : List Char) :
    charSplit sep (x ++ sep :: y) = charSplit sep x ++ charSplit sep y :=
  charSplitAux_append_sep sep x y []

theorem charSplit_cons_sep (sep : Char) (l : List Char) :
    charSplit sep (sep :: l) = [] :: charSplit sep l := by
  simp [charSplit, charSplitAux]

theorem charSplitAux_no_sep (sep : Char) (l cur : List Char)
    (h : sep ∉ l) : charSplitAux sep l cur = [cur.reverse ++ l] := by
  induction l generalizing cur with
  | nil => simp [charSplitAux]
  | cons c cs ih =>
    simp only [List.mem_cons, not_or] at h
    have hcc : ¬ (c = sep) := fun hc => h.1 hc.symm
    simp only [charSplitAux, if_neg hcc]
    rw [ih _ h.2]
    simp

theorem charSplit_no_sep (sep : Char) (l : List Char) (h : sep ∉ l) :
    charSplit sep l = [l] := by
  simpa using charSplitAux_no_sep sep l [] h

theorem charSplitAux_pieces_no_sep (sep : Char) (l cur seg : List Char)
    (hcur : sep ∉ cur) (hseg : seg ∈ charSplitAux sep l cur) : sep ∉ seg := by
  induction l generalizing cur with
  | nil =>
    simp [charSplitAux] at hseg
    subst hseg
    simpa using hcur
  | cons c cs ih =>
    simp only [charSplitAux] at hseg
    split at hseg
    · rcases List.mem_cons.mp hseg with h | h
      · subst h; simpa using hcur
      · exact ih [] (by simp) h
    · refine ih (c :: cur) ?_ hseg
      intro hmem
      rcases List.mem_cons.mp hmem with h | h
      · next hne => exact hne h.symm
      · exact hcur h

theorem charSplit_pieces_no_sep (sep : Char) (l seg : List Char)
    (hseg : seg ∈ charSplit sep l) : sep ∉ seg :=
  charSplitAux_pieces_no_sep sep l [] seg (by simp) hseg

theorem ic_charSplitAux (l cur : List Char) :
    intercalateChars (charSplitAux '/' l cur) = cur.reverse ++ l := by
  induction l generalizing cur with
  | nil => simp [charSplitAux, intercalateChars]
  | cons c cs ih =>
    simp only [charSplitAux]
    split
    · next hc =>
      subst hc
      have hne := charSplitAux_ne_nil '/' cs ([] : List Char)
      have hthis := ih ([] : List Char)
      rcases he : charSplitAux '/' cs ([] : List Char) with _ | ⟨a, rest⟩
      · exact absurd he hne
      · rw [he] at hthis
        simp only [List.reverse_nil, List.nil_append] at hthis
        simp only [intercalateChars, hthis]
    · next hc =>
      rw [ih (c :: cur)]
      simp

theorem ic_charSplit (l : List Char) :
    intercalateChars (charSplit '/' l) = l := by
  simpa using ic_charSplitAux l []

theorem charSplit_ic (A : List (List Char)) (hne : A ≠ [])
    (hs : ∀ seg ∈ A, '/' ∉ seg) :
    charSplit '/' (intercalateChars A) = A := by
  induction A with
  | nil => exact absurd rfl hne
  | cons a rest ih =>
    cases rest with
    | nil =>
      simp only [intercalateChars]
      exact charSplit_no_sep '/' a (hs a (by simp))
    | cons b bs =>
      simp only [intercalateChars]
      rw [charSplit_append_sep]
      rw [charSplit_no_sep '/' a (hs a (by simp))]
      rw [ih (by simp) (fun seg hseg => hs seg (List.mem_cons_of_mem a hseg))]
      simp [intercalateChars]

theorem ic_append_ne (A B : List (List Char)) (hA : A ≠ []) (hB : B ≠ []) :
    intercalateChars (A ++ B) = intercalateChars A ++ '/' :: intercalateChars B := by
  induction A with
  | nil => exact absurd rfl hA
  | cons a rest ih =>
    cases rest with
    | nil =>
      cases B with
      | nil => exact absurd rfl hB
      | cons b bs => simp [intercalateChars]
    | cons c cs =>
      have ihh := ih (by simp)
      simp only [List.cons_append] at ihh ⊢
      simp only [intercalateChars]
      rw [ihh]
      simp

theorem listIsPrefix_append_self (l m : List Char) :
    listIsPrefix l (l ++ m) = true := by
  induction l with
  | nil => simp [listIsPrefix]
  | cons a as ih => simp [listIsPrefix, ih]

theorem listIsPrefix_self (l : List Char) : listIsPrefix l l = true := by
  simpa using listIsPrefix_append_self l []

/-- A normalised path segment: non-empty and not a dot segment. -/
def cleanSeg (seg : List Char) : Prop :=
  seg ≠ [] ∧ seg ≠ ['.'] ∧ seg ≠ ['.', '.']

theorem normStep_empty (acc : List (List Char)) : normStep acc [] = acc := by
  simp [normStep]

theorem normStep_clean (acc : List (List Char)) (seg : List Char)
    (h : cleanSeg seg) : normStep acc seg = acc ++ [seg] := by
  obtain ⟨h1, h2, h3⟩ := h
  simp [normStep, h1, h2, h3]

theorem foldl_normStep_mem (xs : List (List Char)) (acc : List (List Char))
    (seg : List Char) (h : seg ∈ xs.foldl normStep acc) :
    seg ∈ acc ∨ (seg ∈ xs ∧ cleanSeg seg) := by
  induction xs generalizing acc with
  | nil => exact Or.inl (by simpa using h)
  | cons x rest ih =>
    simp only [List.foldl_cons] at h
    rcases ih _ h with hacc | hxs
    · unfold normStep at hacc
      split at hacc
      · exact Or.inl hacc
      · split at hacc
        · exact Or.inl (List.dropLast_subset _ hacc)
        · rcases List.mem_append.mp hacc with h1 | h2
          · exact Or.inl h1
          · next hA hB =>
            have hseg : seg = x := List.mem_singleton.mp h2
            subst hseg
            refine Or.inr ⟨by simp, ?_, ?_, ?_⟩
            · intro hx; exact hA (by simp [hx])
            · intro hx; exact hA (by simp [hx])
            · intro hx; exact hB (by simp [hx])
    · exact Or.inr ⟨List.mem_cons_of_mem _ hxs.1, hxs.2⟩

theorem foldl_normStep_clean_append (ys : List (List Char))
    (acc : List (List Char)) (h : ∀ seg ∈ ys, cleanSeg seg) :
    ys.foldl normStep acc = acc ++ ys := by
  induction ys generalizing acc with
  | nil => simp
  | cons y rest ih =>
    simp only [List.foldl_cons]
    rw [normStep_clean _ _ (h y (by simp)),
      ih _ (fun seg hseg => h seg (List.mem_cons_of_mem _ hseg))]
    simp

theorem normSegs_clean_id (l : List (List Char)) (h : ∀ seg ∈ l, cleanSeg seg) :
    normSegs l = l := by
  simpa using foldl_normStep_clean_append l [] h

theorem normSegs_append (xs ys : List (List Char)) :
    normSegs (xs ++ ys) = ys.foldl normStep (normSegs xs) :=
  List.foldl_append ..

theorem normSegs_append_clean (xs ys : List (List Char))
    (h : ∀ seg ∈ ys, cleanSeg seg) :
    normSegs (xs ++ ys) = normSegs xs ++ ys := by
  rw [normSegs_append, foldl_normStep_clean_append _ _ h]

theorem normSegs_clean_out (xs : List (List Char)) (seg : List Char)
    (h : seg ∈ normSegs xs) : cleanSeg seg := by
  rcases foldl_normStep_mem xs [] seg h with h0 | h1
  · simp at h0
  · exact h1.2

theorem normSegs_no_sep (xs : List (List Char))
    (hx : ∀ s ∈ xs, '/' ∉ s) (seg : List Char) (h : seg ∈ normSegs xs) :
    '/' ∉ seg := by
  rcases foldl_normStep_mem xs [] seg h with h0 | h1
  · simp at h0
  · exact hx seg h1.1

theorem splitSegs_no_sep (s : String) (seg : List Char)
    (h : seg ∈ splitSegs s) : '/' ∉ seg :=
  charSplit_pieces_no_sep '/' s.data seg h

theorem splitSegs_append_slash (a b : String) :
    splitSegs (a ++ "/" ++ b) = splitSegs a ++ splitSegs b := by
  unfold splitSegs
  have h1 : (a ++ "/" ++ b).data = (a.data ++ ['/']) ++ b.data := rfl
  rw [h1, List.append_assoc, List.singleton_append]
  exact charSplit_append_sep '/' a.data b.data

theorem renderAbs_data (S : List (List Char)) :
    (renderAbs S).data = '/' :: intercalateChars S := rfl

theorem jsStartsWith_renderAbs (S : List (List Char)) :
    jsStartsWith (renderAbs S) "/" = true := by
  show listIsPrefix ("/" : String).data ('/' :: intercalateChars S) = true
  rw [show ("/" : String).data = ['/'] from rfl]
  simp [listIsPrefix]

theorem splitSegs_renderAbs_append (S : List (List Char))
    (hs : ∀ seg ∈ S, '/' ∉ seg) (y : String) :
    normSegs (splitSegs (renderAbs S ++ "/" ++ y)) =
      (splitSegs y).foldl normStep (normSegs S) := by
  rw [splitSegs_append_slash]
  have h1 : splitSegs (renderAbs S) = [] :: charSplit '/' (intercalateChars S) := by
    show charSplit '/' ('/' :: intercalateChars S) = _
    exact charSplit_cons_sep '/' _
  rw [h1]
  cases S with
  | nil =>
    show normSegs (([] :: charSplit '/' []) ++ splitSegs y) = _
    simp only [charSplit, charSplitAux, List.reverse_nil]
    show normSegs (([] :: [[]]) ++ splitSegs y) = _
    unfold normSegs
    simp only [List.cons_append, List.foldl_cons, normStep_empty]
    rfl
  | cons a rest =>
    rw [charSplit_ic (a :: rest) (by simp) hs]
    show normSegs (([] :: (a :: rest)) ++ splitSegs y) = _
    unfold normSegs
    simp only [List.cons_append, List.foldl_cons, normStep_empty]
    rw [← List.foldl_append]

theorem pathJoin_abs (a b : String) (h : jsStartsWith a "/" = true) :
    pathJoin a b = renderAbs (normSegs (splitSegs (a ++ "/" ++ b))) := by
  simp [pathJoin, h]

theorem pathResolve_rel (base p : String) (h : jsStartsWith p "/" = false) :
    pathResolve base p = renderAbs (normSegs (splitSegs (base ++ "/" ++ p))) := by
  simp [pathResolve, h]

theorem strAppend_assoc (a b c : String) : a ++ b ++ c = a ++ (b ++ c) :=
  String.ext (by show (a.data ++ b.data) ++ c.data = a.data ++ (b.data ++ c.data); simp)

theorem pathJoin_pathJoin (a b c : String) (ha : jsStartsWith a "/" = true) :
    pathJoin (pathJoin a b) c = pathJoin a (b ++ "/" ++ c) := by
  rw [pathJoin_abs a b ha]
  have hclean := fun seg h =>
    normSegs_clean_out (splitSegs (a ++ "/" ++ b)) seg h
  have hsep := fun seg h =>
    normSegs_no_sep (splitSegs (a ++ "/" ++ b))
      (splitSegs_no_sep (a ++ "/" ++ b)) seg h
  rw [pathJoin_abs _ c (jsStartsWith_renderAbs _)]
  rw [splitSegs_renderAbs_append _ hsep c]
  rw [normSegs_clean_id _ hclean]
  rw [pathJoin_abs a _ ha]
  have hstr : a ++ "/" ++ (b ++ "/" ++ c) = (a ++ "/" ++ b) ++ "/" ++ c :=
    String.ext (by
      show (a.data ++ ['/']) ++ ((b.data ++ ['/']) ++ c.data) =
        (((a.data ++ ['/']) ++ b.data) ++ ['/']) ++ c.data
      simp [List.append_assoc])
  conv_rhs => rw [hstr, splitSegs_append_slash, normSegs_append]

theorem renderAbs_inj (A B : List (List Char)) (hA : A ≠ []) (hB : B ≠ [])
    (hsA : ∀ seg ∈ A, '/' ∉ seg) (hsB : ∀ seg ∈ B, '/' ∉ seg)
    (h : renderAbs A = renderAbs B) : A = B := by
  have hdata : '/' :: intercalateChars A = '/' :: intercalateChars B := by
    rw [← renderAbs_data, ← renderAbs_data, h]
  have h2 : intercalateChars A = intercalateChars B := by
    injection hdata
  calc A = charSplit '/' (intercalateChars A) := (charSplit_ic A hA hsA).symm
    _ = charSplit '/' (intercalateChars B) := by rw [h2]
    _ = B := charSplit_ic B hB hsB

theorem pathJoin_canon_single (S : List (List Char)) (y : String)
    (hclean : ∀ seg ∈ S, cleanSeg seg) (hsep : ∀ seg ∈ S, '/' ∉ seg)
    (hy1 : cleanSeg y.data) (hy2 : '/' ∉ y.data) :
    pathJoin (renderAbs S) y = renderAbs (S ++ [y.data]) := by
  rw [pathJoin_abs _ y (jsStartsWith_renderAbs S)]
  rw [splitSegs_renderAbs_append S hsep y]
  rw [normSegs_clean_id S hclean]
  have hy3 : splitSegs y = [y.data] := charSplit_no_sep '/' y.data hy2
  rw [hy3]
  simp only [List.foldl_cons, List.foldl_nil]
  rw [normStep_clean S y.data hy1]

theorem firstSome_cons {α β : Type} (a : α) (l : List α) (f : α → Option β) :
    firstSome (a :: l) f =
      match f a with
      | some b => some b
      | none => firstSome l f := rfl

theorem firstSome_append_none {α β : Type} (xs ys : List α) (f : α → Option β)
    (h : ∀ a ∈ xs, f a = none) :
    firstSome (xs ++ ys) f = firstSome ys f := by
  induction xs with
  | nil => rfl
  | cons x rest ih =>
    rw [List.cons_append, firstSome_cons, h x (by simp)]
    exact ih fun a ha => h a (List.mem_cons_of_mem _ ha)

theorem objSet_mem {α : Type} (m : List (String × α)) (k : String) (v : α)
    (kv : String × α) (h : kv ∈ objSet m k v) : kv ∈ m ∨ kv = (k, v) := by
  induction m with
  | nil => right; simpa [objSet] using h
  | cons p rest ih =>
    obtain ⟨k0, v0⟩ := p
    simp only [objSet] at h
    split at h
    · next heq =>
      rcases List.mem_cons.mp h with h1 | h1
      · right; rw [h1, heq]
      · left; exact List.mem_cons_of_mem _ h1
    · rcases List.mem_cons.mp h with h1 | h1
      · left; rw [h1]; exact List.mem_cons_self _ _
      · rcases ih h1 with h2 | h2
        · left; exact List.mem_cons_of_mem _ h2
        · right; exact h2

theorem objSet_keys {α : Type} (m : List (String × α)) (k : String) (v : α) :
    (objSet m k v).map Prod.fst =
      if k ∈ m.map Prod.fst then m.map Prod.fst
      else m.map Prod.fst ++ [k] := by
  induction m with
  | nil => simp [objSet]
  | cons p rest ih =>
    obtain ⟨k0, v0⟩ := p
    by_cases hk : k0 = k
    · subst hk
      simp [objSet]
    · simp only [objSet, if_neg hk, List.map_cons]
      rw [ih]
      by_cases hmem : k ∈ rest.map Prod.fst
      · simp [hmem, Ne.symm hk]
      · simp [hmem, Ne.symm hk]

theorem objSet_keys_nodup {α : Type} (m : List (String × α)) (k : String)
    (v : α) (h : (m.map Prod.fst).Nodup) :
    ((objSet m k v).map Prod.fst).Nodup := by
  rw [objSet_keys]
  split
  · exact h
  · next hk =>
    simp only [List.nodup_append, List.nodup_cons, List.nodup_nil]
    exact ⟨h, by simp, by simp [List.disjoint_singleton, hk]⟩

theorem jsStartsWith_append (a n : String) : jsStartsWith (a ++ n) a = true := by
  show listIsPrefix a.data (a.data ++ n.data) = true
  exact listIsPrefix_append_self a.data n.data

theorem jsDrop_append (a n : String) : jsDrop (a ++ n) (jsLength a) = n := by
  show (⟨(a.data ++ n.data).drop a.data.length⟩ : String) = n
  rw [List.drop_left]

theorem stripCronTag_append (n : String) :
    stripCronTag ("__cron__" ++ n) = n := by
  unfold stripCronTag
  rw [if_pos (jsStartsWith_append "__cron__" n)]
  exact jsDrop_append "__cron__" n

theorem matchStars_terminal (pp t : List Char) :
    matchStars [pp, []] (pp ++ t) = some [t] := by
  simp only [matchStars, listIsPrefix_append_self, if_true]
  rw [List.drop_left]
  rw [List.range_succ, List.reverse_append]
  simp only [List.reverse_singleton, List.singleton_append, List.findSome?_cons]
  rw [List.drop_length]
  simp [matchStars, List.take_length]

theorem charSplitAux_eq_single (sep : Char) (l cur x : List Char)
    (hcur : sep ∉ cur) (h : charSplitAux sep l cur = [x]) :
    cur.reverse ++ l = x ∧ sep ∉ x := by
  induction l generalizing cur with
  | nil =>
    simp only [charSplitAux] at h
    have hx : x = cur.reverse := by simpa using h.symm
    subst hx
    exact ⟨by simp, by simpa using hcur⟩
  | cons c cs ih =>
    simp only [charSplitAux] at h
    split at h
    · next hc =>
      exfalso
      have := charSplitAux_ne_nil sep cs ([] : List Char)
      rcases he : charSplitAux sep cs ([] : List Char) with _ | ⟨a, rest⟩
      · exact this he
      · rw [he] at h
        simp at h
    · next hc =>
      have hcur' : sep ∉ c :: cur := by
        intro hmem
        rcases List.mem_cons.mp hmem with h1 | h1
        · exact hc h1.symm
        · exact hcur h1
      obtain ⟨h1, h2⟩ := ih (c :: cur) hcur' h
      constructor
      · rw [← h1]; simp
      · exact h2

theorem charSplit_eq_pair (sep : Char) (l a b : List Char)
    (h : charSplit sep l = [a, b]) :
    l = a ++ sep :: b ∧ sep ∉ a ∧ sep ∉ b := by
  suffices H : ∀ (l cur : List Char), sep ∉ cur →
      charSplitAux sep l cur = [a, b] →
      cur.reverse ++ l = a ++ sep :: b ∧ sep ∉ a ∧ sep ∉ b by
    have := H l [] (by simp) h
    simpa using this
  intro l
  induction l with
  | nil =>
    intro cur _ h
    simp [charSplitAux] at h
  | cons c cs ih =>
    intro cur hcur h
    simp only [charSplitAux] at h
    split at h
    · next hc =>
      subst hc
      have ha : a = cur.reverse := by
        have := congrArg (fun l => l.head?) h
        simpa using this.symm
      have hb : charSplitAux c cs ([] : List Char) = [b] := by
        have := congrArg (fun l => l.tail) h
        simpa using this
      obtain ⟨hb1, hb2⟩ := charSplitAux_eq_single c cs [] b (by simp) hb
      subst ha
      refine ⟨?_, by simpa using hcur, hb2⟩
      simp only [List.reverse_nil, List.nil_append] at hb1
      rw [hb1]
    · next hc =>
      have hcur' : sep ∉ c :: cur := by
        intro hmem
        rcases List.mem_cons.mp hmem with h1 | h1
        · exact hc h1.symm
        · exact hcur h1
      obtain ⟨h1, h2⟩ := ih (c :: cur) hcur' h
      refine ⟨?_, h2⟩
      rw [← h1]; simp

theorem replaceFirstCharAux_split (c : Char) (rep a b : List Char)
    (ha : c ∉ a) :
    replaceFirstCharAux c rep (a ++ c :: b) = a ++ rep ++ b := by
  induction a with
  | nil => simp [replaceFirstCharAux]
  | cons x xs ih =>
    simp only [List.mem_cons, not_or] at ha
    have hx : ¬ (x = c) := fun h => ha.1 h.symm
    simp only [List.cons_append, replaceFirstCharAux, if_neg hx]
    rw [show xs.append (c :: b) = xs ++ c :: b from rfl, ih ha.2]

/-! ## Claims -/

theorem cronLoopRun_some_iff (eff : String) (outcomes : List StartOutcome)
    (e : String) :
    cronLoopRun eff outcomes = some e ↔
      eff = "stop" ∧ firstFailure outcomes = some e := by
  induction outcomes with
  | nil => simp [cronLoopRun, firstFailure]
  | cons o rest ih =>
    cases o with
    | ok r => simpa [cronLoopRun, firstFailure] using ih
    | err e2 =>
      by_cases hs : eff = "stop"
      · simp [cronLoopRun, firstFailure, hs]
      · simp [cronLoopRun, firstFailure, hs, ih]

/-- Claim C9: in the synthesized scheduler loop, a failing delegated
start propagates out of the loop exactly when the effective `onError`
(the config value, defaulting to `"continue"` when omitted) is
`"stop"`, in which case the propagated error is the first failure; with
`"continue"` or an omitted `onError` the loop never propagates and
proceeds past every failure — the `onError` test is the only
failure-propagation choice. -/
theorem claim_C9_theorem (config : CronSchedulerConfig)
    (outcomes : List StartOutcome) :
    (∀ e, cronLoopRun (effectiveOnError config) outcomes = some e ↔
        effectiveOnError config = "stop" ∧ firstFailure outcomes = some e) ∧
    (effectiveOnError config ≠ "stop" →
        cronLoopRun (effectiveOnError config) outcomes = none) := by
  refine ⟨fun e => cronLoopRun_some_iff _ _ _, fun hne => ?_⟩
  rcases hrun : cronLoopRun (effectiveOnError config) outcomes with _ | e
  · rfl
  · exact absurd ((cronLoopRun_some_iff _ _ _).mp hrun).1 hne

/-- Witness for C9: with `onError` omitted, a failing iteration does not
terminate the loop. -/
theorem claim_C9_witness :
    cronLoopRun (effectiveOnError ⟨[], "* * * * *", none, none⟩)
      [StartOutcome.err "boom"] = none :=
  (claim_C9_theorem ⟨[], "* * * * *", none, none⟩
    [StartOutcome.err "boom"]).2 (by decide)

/-- Claim C10: the public `cronStart` function fails on every invocation
at runtime — its body is a single unconditional throw of the
not-transformed diagnostic, regardless of the workflow, arguments and
options passed. -/
theorem claim_C10_theorem {α β : Type} (workflow : α) (args : List β)
    (options : CronOptions) :
    cronStart workflow args options =
      Except.error cronStartNotTransformedMessage := rfl

/-- The call-rewrite example source for C5: the scheduling-call import
plus the example call from the spec. -/
def exampleCallSource : String :=
  "import \x7b cronStart \x7d from \"workflow-cron-start\"\nimport \x7b sendReport \x7d from \"@/lib/workflow\"\n\nconst run = cronStart(sendReport, [\"a@example.com\"], \x7b cron: \"0 9 * * *\", timezone: \"UTC\" \x7d)\n"

/-- Claim C5: the Transformer extracts the example call
`cronStart(sendReport, ["a@example.com"], { cron: "0 9 * * *",
timezone: "UTC" })` and replaces it with an invocation of the task-start
primitive on the wrapper for `sendReport` whose single argument is the
merged configuration object
`{ args: ["a@example.com"], cron: "0 9 * * *", timezone: "UTC" }`. -/
theorem claim_C5_theorem :
    extractCronStartCalls exampleCallSource =
      [⟨"sendReport", "[\"a@example.com\"]",
        "\x7b cron: \"0 9 * * *\", timezone: \"UTC\" \x7d",
        "cronStart(sendReport, [\"a@example.com\"], \x7b cron: \"0 9 * * *\", timezone: \"UTC\" \x7d)"⟩] ∧
    replaceCronStartCalls exampleCallSource
        (extractCronStartCalls exampleCallSource) =
      "import \x7b cronStart \x7d from \"workflow-cron-start\"\nimport \x7b sendReport \x7d from \"@/lib/workflow\"\n\nconst run = start(__cron__sendReport, [\x7b args: [\"a@example.com\"], cron: \"0 9 * * *\", timezone: \"UTC\" \x7d])\n" := by
  constructor
  · decide
  · decide

/-- Claim C6: removing the scheduling-call identifier from an import of
the expected module leaves a syntactically valid import with no stray
comma in the solo, leading, trailing and middle positions, and an import
left empty by the removal is removed entirely. -/
theorem claim_C6_theorem :
    updateImportsRemoveCron
        "import \x7b cronStart \x7d from \"workflow-cron-start\"\n" = "" ∧
    updateImportsRemoveCron
        "import \x7b cronStart, helper \x7d from \"workflow-cron-start\"" =
      "import \x7b helper \x7d from \"workflow-cron-start\"" ∧
    updateImportsRemoveCron
        "import \x7b helper, cronStart \x7d from \"workflow-cron-start\"" =
      "import \x7b helper\x7d from \"workflow-cron-start\"" ∧
    updateImportsRemoveCron
        "import \x7b helper, cronStart, other \x7d from \"workflow-cron-start\"" =
      "import \x7b helper, other \x7d from \"workflow-cron-start\"" ∧
    updateImportsRemoveCron
        "import \x7bcronStart,\x7d from \"workflow-cron-start\"" = "" := by
  refine ⟨?_, ?_, ?_, ?_, ?_⟩ <;> decide

/-- Claim C8: for any two files each containing qualifying scheduling
calls that the Scanner extracts as the same (function name, origin)
pair, scanning both files returns exactly one CallSite for that pair
(the first file's). -/
theorem claim_C8_theorem (workingDir f1 f2 s1 s2 fn origin : String)
    (h1 : extractCronStartCallsFromSource s1 f1 = [⟨fn, origin, f1⟩])
    (h2 : extractCronStartCallsFromSource s2 f2 = [⟨fn, origin, f2⟩]) :
    scanForCronStartCalls [(f1, some s1), (f2, some s2)] workingDir =
      [⟨fn, origin, f1⟩] := by
  unfold scanForCronStartCalls
  show deduplicateCalls
      (extractCronStartCallsFromSource s1 f1 ++
        (extractCronStartCallsFromSource s2 f2 ++ [])) = _
  rw [h1, h2, List.append_nil]
  unfold deduplicateCalls
  simp only [List.cons_append, List.nil_append, List.foldl_cons, List.foldl_nil]
  simp [List.contains, List.elem]

/-- First witness source for C8. -/
def scanWitnessSource1 : String :=
  "import \x7b cronStart \x7d from \"workflow-cron-start\"\nimport \x7b job \x7d from \"@/lib/jobs\"\ncronStart(job, [], \x7b cron: \"* * * * *\" \x7d)\n"

/-- Second witness source for C8 (different surrounding code, same
function and origin). -/
def scanWitnessSource2 : String :=
  "import \x7b cronStart \x7d from \"workflow-cron-start\"\nimport \x7b job \x7d from \"@/lib/jobs\"\n\nexport async function POST() \x7b\n    await cronStart(job, [], \x7b cron: \"0 9 * * *\" \x7d)\n\x7d\n"

/-- Witness for C8: two concrete files with the same scheduled function
and origin scan to exactly one CallSite. -/
theorem claim_C8_witness :
    scanForCronStartCalls
        [("/proj/src/app/a.ts", some scanWitnessSource1),
         ("/proj/src/app/b.ts", some scanWitnessSource2)] "/proj" =
      [⟨"job", "@/lib/jobs", "/proj/src/app/a.ts"⟩] :=
  claim_C8_theorem "/proj" "/proj/src/app/a.ts" "/proj/src/app/b.ts"
    scanWitnessSource1 scanWitnessSource2 "job" "@/lib/jobs"
    (by decide) (by decide)

theorem manifest_fold_inv (infos : List WrapperInfo)
    (h : ∀ info ∈ infos, ∃ n : String,
        info.wrapperName = "__cron__" ++ n ∧
        info.triggerDirName = "trigger-" ++ n)
    (acc : List (String × ManifestEntry))
    (hacc1 : ∀ kv ∈ acc, kv.2 = ⟨"__cron__" ++ kv.1, "trigger-" ++ kv.1⟩)
    (hacc2 : (acc.map Prod.fst).Nodup) :
    (∀ kv ∈ infos.foldl
        (fun manifest info =>
          objSet manifest (stripCronTag info.wrapperName)
            ⟨info.wrapperName, info.triggerDirName⟩) acc,
      kv.2 = ⟨"__cron__" ++ kv.1, "trigger-" ++ kv.1⟩) ∧
    ((infos.foldl
        (fun manifest info =>
          objSet manifest (stripCronTag info.wrapperName)
            ⟨info.wrapperName, info.triggerDirName⟩) acc).map Prod.fst).Nodup := by
  induction infos generalizing acc with
  | nil => exact ⟨hacc1, hacc2⟩
  | cons info rest ih =>
    simp only [List.foldl_cons]
    obtain ⟨n, hw, ht⟩ := h info (by simp)
    refine ih (fun i hi => h i (List.mem_cons_of_mem _ hi)) _ ?_
      (objSet_keys_nodup _ _ _ hacc2)
    intro kv hkv
    rcases objSet_mem _ _ _ _ hkv with hmem | heq
    · exact hacc1 kv hmem
    · rw [heq]
      show (⟨info.wrapperName, info.triggerDirName⟩ : ManifestEntry) =
        ⟨"__cron__" ++ stripCronTag info.wrapperName,
         "trigger-" ++ stripCronTag info.wrapperName⟩
      rw [hw, ht, stripCronTag_append]

theorem wrapperInfos_shape (calls : List CronStartCall) (fs : FsE)
    (workingDir : String) (t : TsconfigPaths) :
    ∀ info ∈ ((uniqueWorkflows calls).map fun call =>
        (call, generateWrapperDirectory call (getCronWrapperDir fs workingDir)
          workingDir t)).map (fun r => r.2.1),
      ∃ n : String, info.wrapperName = "__cron__" ++ n ∧
        info.triggerDirName = "trigger-" ++ n := by
  intro info hinfo
  simp only [List.map_map, List.mem_map, Function.comp] at hinfo
  obtain ⟨call, _, heq⟩ := hinfo
  exact ⟨call.workflowFunctionName, by rw [← heq]; rfl, by rw [← heq]; rfl⟩

/-- Claim C4: in every generation pass the written manifest is a mapping
object (no duplicate keys) keyed by the original function name, and
every value consists of exactly the two string fields of
`ManifestEntry`: `wrapperName`, the fixed prefix `__cron__` plus the
function name, and the container directory, the different fixed prefix
`trigger-` plus the function name. -/
theorem claim_C4_theorem (calls : List CronStartCall) (fs : FsE)
    (workingDir : String) (t : TsconfigPaths) :
    (∀ kv ∈ (generateWrapperFiles calls fs workingDir t).manifest,
        kv.2 = ⟨"__cron__" ++ kv.1, "trigger-" ++ kv.1⟩) ∧
    (((generateWrapperFiles calls fs workingDir t).manifest).map
        Prod.fst).Nodup :=
  manifest_fold_inv _ (wrapperInfos_shape calls fs workingDir t) []
    (by simp) (by simp)

/-- Witness call list for C4. -/
def manifestWitnessCalls : List CronStartCall :=
  [⟨"sendReport", "@/lib/workflow", "/proj/src/app/page.tsx"⟩]

/-- Witness filesystem for C4 (a `src/app` project). -/
def manifestWitnessFs : FsE := fun p => p == "/proj/src/app"

/-- Witness for C4: the concrete manifest entry for `sendReport` has the
two prefixed fields. -/
theorem claim_C4_witness :
    (("sendReport",
        (⟨"__cron__sendReport", "trigger-sendReport"⟩ : ManifestEntry)) ∈
      (generateWrapperFiles manifestWitnessCalls manifestWitnessFs "/proj"
        ⟨none, []⟩).manifest) ∧
    (⟨"__cron__sendReport", "trigger-sendReport"⟩ : ManifestEntry) =
      ⟨"__cron__" ++ "sendReport", "trigger-" ++ "sendReport"⟩ := by
  constructor
  · decide
  · exact (claim_C4_theorem manifestWitnessCalls manifestWitnessFs "/proj"
      ⟨none, []⟩).1
      ("sendReport", ⟨"__cron__sendReport", "trigger-sendReport"⟩) (by decide)

theorem ensureDot_starts (rel : String) :
    jsStartsWith (if ¬ jsStartsWith rel "." then "./" ++ rel else rel) "." =
      true := by
  split
  · show listIsPrefix ("." : String).data (("./" ++ rel).data) = true
    rw [show (("./" : String) ++ rel).data = '.' :: '/' :: rel.data from rfl,
      show ("." : String).data = ['.'] from rfl]
    simp [listIsPrefix]
  · next h => exact not_not.mp h

/-- Claim C7: `calculateRelativeImport` implements the hybrid policy in
order — (1) an alias-form origin is preserved verbatim; (2) a relative
origin is resolved against the referencing directory and re-expressed
as an alias when one covers the path and the alias is a nonempty
string (the empty string is falsy in JS, so `if (aliasImport)`
discards it); (3) when no alias covers the path, or the produced alias
is the empty string, the result is a path relative to the synthesized
module directory with forward-slash separators and a guaranteed
leading dot marker; (4) any other origin passes through unchanged. -/
theorem claim_C7_theorem (generatedFilePath originalImportPath sourceFile
    workingDir : String) (t : TsconfigPaths) :
    (isPathAlias originalImportPath t = true →
      calculateRelativeImport generatedFilePath originalImportPath
        sourceFile workingDir t = originalImportPath) ∧
    (isPathAlias originalImportPath t = false →
      jsStartsWith originalImportPath "." = true →
      ∀ a, absolutePathToAlias
          (pathResolve (dirname sourceFile) originalImportPath)
          workingDir t = some a →
        a ≠ "" →
        calculateRelativeImport generatedFilePath originalImportPath
          sourceFile workingDir t = a) ∧
    (isPathAlias originalImportPath t = false →
      jsStartsWith originalImportPath "." = true →
      (absolutePathToAlias
          (pathResolve (dirname sourceFile) originalImportPath)
          workingDir t = none ∨
       absolutePathToAlias
          (pathResolve (dirname sourceFile) originalImportPath)
          workingDir t = some "") →
      (calculateRelativeImport generatedFilePath originalImportPath
          sourceFile workingDir t =
        (let rel := mapSlash (pathRelative (dirname generatedFilePath)
            (pathResolve (dirname sourceFile) originalImportPath))
         if ¬ jsStartsWith rel "." then "./" ++ rel else rel) ∧
       jsStartsWith (calculateRelativeImport generatedFilePath
          originalImportPath sourceFile workingDir t) "." = true)) ∧
    (isPathAlias originalImportPath t = false →
      jsStartsWith originalImportPath "." = false →
      calculateRelativeImport generatedFilePath originalImportPath
        sourceFile workingDir t = originalImportPath) := by
  refine ⟨?_, ?_, ?_, ?_⟩
  · intro h
    simp [calculateRelativeImport, h]
  · intro h1 h2 a ha hne
    simp [calculateRelativeImport, h1, h2, ha, hne]
  · intro h1 h2 ha
    have hcalc : calculateRelativeImport generatedFilePath originalImportPath
        sourceFile workingDir t =
        (let rel := mapSlash (pathRelative (dirname generatedFilePath)
            (pathResolve (dirname sourceFile) originalImportPath))
         if ¬ jsStartsWith rel "." then "./" ++ rel else rel) := by
      rcases ha with ha | ha
      · simp [calculateRelativeImport, h1, h2, ha]
      · simp [calculateRelativeImport, h1, h2, ha]
    refine ⟨hcalc, ?_⟩
    rw [hcalc]
    exact ensureDot_starts _
  · intro h1 h2
    simp [calculateRelativeImport, h1, h2]

/-- Witness for C7 (case 2): a relative origin covered by an alias is
re-expressed as the nonempty alias that `absolutePathToAlias`
produces. -/
theorem claim_C7_witness :
    calculateRelativeImport
      "/proj/src/app/cron-wrappers/trigger-w/workflow.ts" "./lib/w"
      "/proj/src/app/x.ts" "/proj" ⟨none, [("@/*", ["./src/*"])]⟩ =
      "@//app/lib/w" :=
  ( claim_C7_theorem "/proj/src/app/cron-wrappers/trigger-w/workflow.ts"
    "./lib/w" "/proj/src/app/x.ts" "/proj"
    ⟨none, [("@/*", ["./src/*"])]⟩).2.1 (by decide) (by decide)
    "@//app/lib/w" (by decide) (by decide)

theorem wrapperDir_agrees (fs : FsE) (workingDir : String)
    (hwd : jsStartsWith workingDir "/" = true)
    (h1 : fs (getCronWrapperDir fs workingDir) = true)
    (h2 : fs (pathJoin4 workingDir "src" "app" "cron-wrappers") = true →
          fs (pathJoin3 workingDir "src" "app") = true) :
    loaderGetCronWrapperDir fs workingDir = getCronWrapperDir fs workingDir := by
  have hA : pathJoin (pathJoin3 workingDir "src" "app") CRON_WRAPPER_DIR_NAME =
      pathJoin4 workingDir "src" "app" "cron-wrappers" := by
    unfold pathJoin3 pathJoin4 CRON_WRAPPER_DIR_NAME
    exact pathJoin_pathJoin _ _ _ hwd
  have hB : pathJoin (pathJoin workingDir "app") CRON_WRAPPER_DIR_NAME =
      pathJoin3 workingDir "app" "cron-wrappers" := by
    unfold pathJoin3 CRON_WRAPPER_DIR_NAME
    exact pathJoin_pathJoin _ _ _ hwd
  by_cases hSA : fs (pathJoin3 workingDir "src" "app") = true
  · have hgen : getCronWrapperDir fs workingDir =
        pathJoin4 workingDir "src" "app" "cron-wrappers" := by
      simp only [getCronWrapperDir, hSA, if_true]
      exact hA
    have hC : fs (pathJoin4 workingDir "src" "app" "cron-wrappers") = true := by
      rw [← hgen]; exact h1
    rw [hgen]
    simp only [loaderGetCronWrapperDir, hC, if_true]
  · by_cases hAp : fs (pathJoin workingDir "app") = true
    · have hgen : getCronWrapperDir fs workingDir =
          pathJoin3 workingDir "app" "cron-wrappers" := by
        simp only [getCronWrapperDir]
        rw [if_neg hSA, if_pos hAp]
        exact hB
      have hD : fs (pathJoin3 workingDir "app" "cron-wrappers") = true := by
        rw [← hgen]; exact h1
      have hC : fs (pathJoin4 workingDir "src" "app" "cron-wrappers") = false := by
        cases hfc : fs (pathJoin4 workingDir "src" "app" "cron-wrappers") with
        | false => rfl
        | true => exact absurd (h2 hfc) hSA
      rw [hgen]
      simp only [loaderGetCronWrapperDir]
      rw [if_neg (by simp [hC]), if_pos hD]
    · have hgen : getCronWrapperDir fs workingDir =
          pathJoin4 workingDir "src" "app" "cron-wrappers" := by
        simp only [getCronWrapperDir]
        rw [if_neg hSA, if_neg hAp]
        exact hA
      have hC : fs (pathJoin4 workingDir "src" "app" "cron-wrappers") = true := by
        rw [← hgen]; exact h1
      exact absurd (h2 hC) hSA

theorem replaceFirstSub_self (s rep : String) :
    replaceFirstSub s s rep = rep := by
  unfold replaceFirstSub firstIndexOfSub
  have h0 : firstSome (List.range (s.data.length + 1))
      (fun i => if listIsPrefix s.data (s.data.drop i) then some i else none) =
      some 0 := by
    rw [List.range_succ_eq_map, firstSome_cons]
    simp [listIsPrefix_self]
  rw [h0]
  apply String.ext
  show s.data.take 0 ++ rep.data ++ s.data.drop (0 + s.data.length) = rep.data
  simp

/-- Claim C2: for every scheduled function name, the wrapper identifier
the Transformer (loader) imports and then invokes through the task-start
primitive is exactly the identifier the Generator derives and exports
from the synthesized module, and the Transformer's wrapper import is
sourced from the Generator's container-directory location expressed
relative to the rewritten file — provided the filesystem is in a
post-generation state (the Generator's chosen container directory
exists and directory existence is hierarchy-consistent). -/
theorem claim_C2_theorem (fs : FsE)
    (workingDir resourcePath name imp srcFile argsNode optionsNode
      originalCall : String) (t : TsconfigPaths)
    (hwd : jsStartsWith workingDir "/" = true)
    (h1 : fs (getCronWrapperDir fs workingDir) = true)
    (h2 : fs (pathJoin4 workingDir "src" "app" "cron-wrappers") = true →
          fs (pathJoin3 workingDir "src" "app") = true) :
    loaderGetCronWrapperDir fs workingDir = getCronWrapperDir fs workingDir ∧
    loaderWrapperImportStmt resourcePath workingDir fs name =
      "import \x7b " ++
      (generateWrapperDirectory ⟨name, imp, srcFile⟩
        (getCronWrapperDir fs workingDir) workingDir t).1.wrapperName ++
      " \x7d from \"" ++
      ((let rel0 := mapSlash (pathRelative (dirname resourcePath)
          (getCronWrapperDir fs workingDir))
        if ¬ jsStartsWith rel0 "." then "./" ++ rel0 else rel0) ++ "/" ++
       (generateWrapperDirectory ⟨name, imp, srcFile⟩
         (getCronWrapperDir fs workingDir) workingDir t).1.triggerDirName ++
       "/workflow") ++
      "\"" ∧
    (∀ w ∈ (generateWrapperDirectory ⟨name, imp, srcFile⟩
        (getCronWrapperDir fs workingDir) workingDir t).2,
      isSubstrOf ("export async function " ++
        (generateWrapperDirectory ⟨name, imp, srcFile⟩
          (getCronWrapperDir fs workingDir) workingDir t).1.wrapperName)
        w.2) ∧
    (∃ merged, replaceCronStartCalls originalCall
        [⟨name, argsNode, optionsNode, originalCall⟩] =
      "start(" ++
      (generateWrapperDirectory ⟨name, imp, srcFile⟩
        (getCronWrapperDir fs workingDir) workingDir t).1.wrapperName ++
      ", [" ++ merged ++ "])") := by
  have hd := wrapperDir_agrees fs workingDir hwd h1 h2
  refine ⟨hd, ?_, ?_, ?_⟩
  · show "import \x7b " ++ ("__cron__" ++ name) ++ " \x7d from \"" ++
        loaderWrapperImportPath resourcePath workingDir fs name ++ "\"" = _
    unfold loaderWrapperImportPath
    rw [hd]
    rfl
  · intro w hw
    have hw2 : w = (pathJoin (pathJoin (getCronWrapperDir fs workingDir)
        ("trigger-" ++ name)) "workflow.ts",
        generateCronWorkflowContent ("__cron__" ++ name) name
          (calculateRelativeImport
            (pathJoin (pathJoin (getCronWrapperDir fs workingDir)
              ("trigger-" ++ name)) "workflow.ts")
            imp srcFile workingDir t)) := by
      simpa [generateWrapperDirectory] using hw
    rw [hw2]
    refine ⟨cronWorkflowBeforeExport name ("__trigger_" ++ name ++ "__")
        (calculateRelativeImport
          (pathJoin (pathJoin (getCronWrapperDir fs workingDir)
            ("trigger-" ++ name)) "workflow.ts") imp srcFile workingDir t),
      cronWorkflowAfterName name ("__trigger_" ++ name ++ "__"), ?_⟩
    show cronWorkflowBeforeExport name _ _ ++ "export async function " ++
        ("__cron__" ++ name) ++ cronWorkflowAfterName name _ = _
    rw [strAppend_assoc (cronWorkflowBeforeExport name _ _)
      "export async function " ("__cron__" ++ name)]
    rfl
  · refine ⟨(if jsStartsWith optionsNode "\x7b" then
        "\x7b args: " ++ argsNode ++ ", " ++
          jsTrim (jsTake (jsDrop optionsNode 1) (jsLength optionsNode - 2)) ++
          " \x7d"
      else "\x7b args: " ++ argsNode ++ ", ..." ++ optionsNode ++ " \x7d"), ?_⟩
    show replaceFirstSub originalCall originalCall _ = _
    rw [replaceFirstSub_self]
    split <;> rfl

/-- Witness filesystem for C2: a post-generation `src/app` project. -/
def postGenFs : FsE := fun p =>
  p == "/proj/src/app" || p == "/proj/src/app/cron-wrappers"

/-- Witness for C2: the concrete wrapper import the loader emits for
`sendReport` names the generator's identifier and points into the
container directory of the Generator relative to the rewritten file. -/
theorem claim_C2_witness :
    loaderWrapperImportStmt "/proj/src/app/api/r.ts" "/proj" postGenFs
        "sendReport" =
      "import \x7b __cron__sendReport \x7d from \"../cron-wrappers/trigger-sendReport/workflow\"" := by
  have h := (claim_C2_theorem postGenFs "/proj" "/proj/src/app/api/r.ts"
    "sendReport" "@/lib/w" "/proj/src/app/x.ts" "[]" "opts"
    "cronStart(sendReport, [], opts)" ⟨none, []⟩
    (by decide) (by decide) (by decide)).2.1
  rw [h]
  decide

/-- The grouping key `` `${name}:${importPath}` `` shared by
`deduplicateCalls` and `generateWrapperFiles`. -/
def callKey (c : CronStartCall) : String :=
  c.workflowFunctionName ++ ":" ++ c.importPath

theorem uwFold_inv (pending : List CronStartCall)
    (st : List String × List CronStartCall)
    (hkeys : st.1 = st.2.map callKey)
    (hpair : st.2.Pairwise fun a b => callKey a ≠ callKey b) :
    (pending.foldl
        (fun st call =>
          let key := call.workflowFunctionName ++ ":" ++ call.importPath
          if st.1.contains key then st else (st.1 ++ [key], st.2 ++ [call]))
        st).1 =
      ((pending.foldl
        (fun st call =>
          let key := call.workflowFunctionName ++ ":" ++ call.importPath
          if st.1.contains key then st else (st.1 ++ [key], st.2 ++ [call]))
        st).2).map callKey ∧
    ((pending.foldl
        (fun st call =>
          let key := call.workflowFunctionName ++ ":" ++ call.importPath
          if st.1.contains key then st else (st.1 ++ [key], st.2 ++ [call]))
        st).2).Pairwise (fun a b => callKey a ≠ callKey b) ∧
    (∀ c ∈ pending, ∃ u ∈ (pending.foldl
        (fun st call =>
          let key := call.workflowFunctionName ++ ":" ++ call.importPath
          if st.1.contains key then st else (st.1 ++ [key], st.2 ++ [call]))
        st).2, callKey u = callKey c) ∧
    (∀ u ∈ st.2, u ∈ (pending.foldl
        (fun st call =>
          let key := call.workflowFunctionName ++ ":" ++ call.importPath
          if st.1.contains key then st else (st.1 ++ [key], st.2 ++ [call]))
        st).2) := by
  induction pending generalizing st with
  | nil =>
    exact ⟨hkeys, hpair, by simp, fun u hu => hu⟩
  | cons c rest ih =>
    simp only [List.foldl_cons]
    by_cases hc : st.1.contains
        (c.workflowFunctionName ++ ":" ++ c.importPath) = true
    · have hstep : (if st.1.contains
          (c.workflowFunctionName ++ ":" ++ c.importPath) then st
          else (st.1 ++ [c.workflowFunctionName ++ ":" ++ c.importPath],
            st.2 ++ [c])) = st := by
        rw [if_pos hc]
      rw [hstep]
      obtain ⟨ha, hb, hcov, hmono⟩ := ih st hkeys hpair
      refine ⟨ha, hb, ?_, hmono⟩
      intro d hd
      rcases List.mem_cons.mp hd with h1 | h1
      · subst h1
        have hmem : callKey d ∈ st.2.map callKey := by
          rw [← hkeys]
          exact List.elem_iff.mp hc
        obtain ⟨u, hu, hku⟩ := List.mem_map.mp hmem
        exact ⟨u, hmono u hu, hku⟩
      · exact hcov d h1
    · have hstep : (if st.1.contains
          (c.workflowFunctionName ++ ":" ++ c.importPath) then st
          else (st.1 ++ [c.workflowFunctionName ++ ":" ++ c.importPath],
            st.2 ++ [c])) =
          (st.1 ++ [callKey c], st.2 ++ [c]) := by
        rw [if_neg hc]
        rfl
      rw [hstep]
      have hkeys2 : (st.1 ++ [callKey c], st.2 ++ [c]).1 =
          ((st.1 ++ [callKey c], st.2 ++ [c]).2).map callKey := by
        show st.1 ++ [callKey c] = (st.2 ++ [c]).map callKey
        rw [hkeys, List.map_append, List.map_singleton]
      have hnotmem : callKey c ∉ st.2.map callKey := by
        intro hmem
        rw [← hkeys] at hmem
        exact hc (List.elem_iff.mpr hmem)
      have hpair2 : ((st.1 ++ [callKey c], st.2 ++ [c]).2).Pairwise
          (fun a b => callKey a ≠ callKey b) := by
        show (st.2 ++ [c]).Pairwise _
        rw [List.pairwise_append]
        refine ⟨hpair, by simp, ?_⟩
        intro a ha b hb
        have hbc : b = c := List.mem_singleton.mp hb
        subst hbc
        intro hk
        exact hnotmem (hk ▸ List.mem_map_of_mem callKey ha)
      obtain ⟨ha, hb, hcov, hmono⟩ :=
        ih (st.1 ++ [callKey c], st.2 ++ [c]) hkeys2 hpair2
      refine ⟨ha, hb, ?_, ?_⟩
      · intro d hd
        rcases List.mem_cons.mp hd with h1 | h1
        · subst h1
          exact ⟨d, hmono d (by simp), rfl⟩
        · exact hcov d h1
      · intro u hu
        exact hmono u (by simp [hu])

theorem uniqueWorkflows_inv (calls : List CronStartCall) :
    ((uniqueWorkflows calls).Pairwise fun a b => callKey a ≠ callKey b) ∧
    (∀ c ∈ calls, ∃ u ∈ uniqueWorkflows calls, callKey u = callKey c) := by
  obtain ⟨_, hb, hcov, _⟩ :=
    uwFold_inv calls (([] : List String), ([] : List CronStartCall))
      (by simp) (by simp)
  exact ⟨hb, hcov⟩

theorem cons_clean (c : Char) (l : List Char) (hc : c ≠ '.') :
    cleanSeg (c :: l) := by
  refine ⟨by simp, ?_, ?_⟩ <;> intro h <;> (injection h with h1 h2; exact hc h1)

theorem getCronWrapperDir_canon (fs : FsE) (workingDir : String)
    (hwd : jsStartsWith workingDir "/" = true) :
    ∃ S, getCronWrapperDir fs workingDir = renderAbs S ∧
      (∀ seg ∈ S, cleanSeg seg) ∧ (∀ seg ∈ S, '/' ∉ seg) := by
  have habs1 : jsStartsWith (pathJoin3 workingDir "src" "app") "/" = true := by
    unfold pathJoin3
    rw [pathJoin_abs _ _ hwd]
    exact jsStartsWith_renderAbs _
  have habs2 : jsStartsWith (pathJoin workingDir "app") "/" = true := by
    rw [pathJoin_abs _ _ hwd]
    exact jsStartsWith_renderAbs _
  have mk : ∀ a : String, jsStartsWith a "/" = true →
      ∃ S, pathJoin a CRON_WRAPPER_DIR_NAME = renderAbs S ∧
        (∀ seg ∈ S, cleanSeg seg) ∧ (∀ seg ∈ S, '/' ∉ seg) := by
    intro a ha
    refine ⟨normSegs (splitSegs (a ++ "/" ++ CRON_WRAPPER_DIR_NAME)),
      pathJoin_abs _ _ ha, ?_, ?_⟩
    · exact fun seg h => normSegs_clean_out _ seg h
    · exact fun seg h => normSegs_no_sep _ (splitSegs_no_sep _) seg h
  unfold getCronWrapperDir
  by_cases hA : fs (pathJoin3 workingDir "src" "app") = true
  · simp only [hA, if_true]
    exact mk _ habs1
  · simp only [hA, if_false]
    by_cases hB : fs (pathJoin workingDir "app") = true
    · simp only [hB, if_true]
      exact mk _ habs2
    · simp only [hB, if_false]
      exact mk _ habs1

theorem wordish_no_slash (n : String) (h : n.data.all isWordCh = true) :
    '/' ∉ ("trigger-" ++ n).data := by
  intro hmem
  have hmem2 : ('/' : Char) ∈ ("trigger-" : String).data ++ n.data := hmem
  rcases List.mem_append.mp hmem2 with h1 | h1
  · have : ("trigger-" : String).data = ['t','r','i','g','g','e','r','-'] := rfl
    rw [this] at h1
    simp at h1
  · have := List.all_eq_true.mp h _ h1
    simp [isWordCh, Char.isAlphanum, Char.isAlpha, Char.isUpper,
      Char.isLower, Char.isDigit] at this

theorem triggerSeg_clean (n : String) : cleanSeg ("trigger-" ++ n).data :=
  cons_clean 't' _ (by decide)

theorem wrapperPath_inj (fs : FsE) (workingDir : String)
    (hwd : jsStartsWith workingDir "/" = true)
    (n1 n2 : String)
    (h1 : n1.data.all isWordCh = true) (h2 : n2.data.all isWordCh = true) :
    (pathJoin (pathJoin (getCronWrapperDir fs workingDir)
        ("trigger-" ++ n1)) "workflow.ts" =
     pathJoin (pathJoin (getCronWrapperDir fs workingDir)
        ("trigger-" ++ n2)) "workflow.ts") ↔ n1 = n2 := by
  constructor
  · intro heq
    obtain ⟨S, hS, hclean, hsep⟩ := getCronWrapperDir_canon fs workingDir hwd
    have hw1 : cleanSeg ("workflow.ts" : String).data := by
      refine ⟨by decide, by decide, by decide⟩
    have hw2 : '/' ∉ ("workflow.ts" : String).data := by decide
    have build : ∀ n : String, n.data.all isWordCh = true →
        pathJoin (pathJoin (getCronWrapperDir fs workingDir)
          ("trigger-" ++ n)) "workflow.ts" =
        renderAbs (S ++ [("trigger-" ++ n).data] ++
          [("workflow.ts" : String).data]) := by
      intro n hn
      rw [hS]
      rw [pathJoin_canon_single S ("trigger-" ++ n) hclean hsep
        (triggerSeg_clean n) (wordish_no_slash n hn)]
      rw [pathJoin_canon_single (S ++ [("trigger-" ++ n).data]) "workflow.ts"
        ?hc ?hs hw1 hw2]
      case hc =>
        intro seg hseg
        rcases List.mem_append.mp hseg with hm | hm
        · exact hclean seg hm
        · rw [List.mem_singleton.mp hm]
          exact triggerSeg_clean n
      case hs =>
        intro seg hseg
        rcases List.mem_append.mp hseg with hm | hm
        · exact hsep seg hm
        · rw [List.mem_singleton.mp hm]
          exact wordish_no_slash n hn
    rw [build n1 h1, build n2 h2] at heq
    have hlists := renderAbs_inj _ _ (by simp) (by simp)
      (fun seg hseg => by
        rcases List.mem_append.mp hseg with hm | hm
        · rcases List.mem_append.mp hm with hm2 | hm2
          · exact hsep seg hm2
          · rw [List.mem_singleton.mp hm2]; exact wordish_no_slash n1 h1
        · rw [List.mem_singleton.mp hm]; exact hw2)
      (fun seg hseg => by
        rcases List.mem_append.mp hseg with hm | hm
        · rcases List.mem_append.mp hm with hm2 | hm2
          · exact hsep seg hm2
          · rw [List.mem_singleton.mp hm2]; exact wordish_no_slash n2 h2
        · rw [List.mem_singleton.mp hm]; exact hw2)
      heq
    have hmid : [("trigger-" ++ n1).data] ++ [("workflow.ts" : String).data] =
        [("trigger-" ++ n2).data] ++ [("workflow.ts" : String).data] := by
      have := hlists
      rw [List.append_assoc, List.append_assoc] at this
      exact List.append_cancel_left this
    have htr : ("trigger-" ++ n1).data = ("trigger-" ++ n2).data := by
      injection hmid with ha hb
    have hnd : n1.data = n2.data := by
      have htr2 : ("trigger-" : String).data ++ n1.data =
          ("trigger-" : String).data ++ n2.data := htr
      exact List.append_cancel_left htr2
    exact String.ext hnd
  · intro h
    rw [h]

theorem uwFold_sub (pending : List CronStartCall)
    (st : List String × List CronStartCall) (u : CronStartCall)
    (hu : u ∈ (pending.foldl
        (fun st call =>
          let key := call.workflowFunctionName ++ ":" ++ call.importPath
          if st.1.contains key then st else (st.1 ++ [key], st.2 ++ [call]))
        st).2) :
    u ∈ st.2 ∨ u ∈ pending := by
  induction pending generalizing st with
  | nil => exact Or.inl (by simpa using hu)
  | cons c rest ih =>
    simp only [List.foldl_cons] at hu
    rcases ih _ hu with h1 | h1
    · by_cases hc : st.1.contains
          (c.workflowFunctionName ++ ":" ++ c.importPath) = true
      · simp only [hc, if_true] at h1
        exact Or.inl h1
      · simp only [hc, if_false] at h1
        rcases List.mem_append.mp h1 with h2 | h2
        · exact Or.inl h2
        · right
          rw [List.mem_singleton.mp h2]
          exact List.mem_cons_self _ _
    · right
      exact List.mem_cons_of_mem _ h1

theorem uniqueWorkflows_sub (calls : List CronStartCall) (u : CronStartCall)
    (hu : u ∈ uniqueWorkflows calls) : u ∈ calls := by
  rcases uwFold_sub calls (([] : List String), ([] : List CronStartCall)) u
      hu with h | h
  · simp at h
  · exact h

/-- Calls whose unique (name, origin) pairs differ only in origin. -/
def collidingCalls : List CronStartCall :=
  [⟨"f", "./a", "/proj/src/x.ts"⟩, ⟨"f", "./b", "/proj/src/y.ts"⟩]

/-- A `src/app` project filesystem. -/
def srcAppOnlyFs : FsE := fun p => p == "/proj/src/app"

/-- Counterexample for C3: two distinct (function name, import origin)
pairs survive grouping as distinct entries, yet both wrapper modules are
written to the same `workflow.ts` path (the directory name depends only
on the function name), so distinct unique pairs do not each get their
own wrapper module. -/
theorem claim_C3_counterexample :
    ((collidingCalls.map fun c =>
        (c.workflowFunctionName, c.importPath)).Nodup) ∧
    uniqueWorkflows collidingCalls = collidingCalls ∧
    (generateWrapperFiles collidingCalls srcAppOnlyFs "/proj"
        ⟨none, []⟩).generatedFiles =
      ["/proj/src/app/cron-wrappers/trigger-f/workflow.ts",
       "/proj/src/app/cron-wrappers/trigger-f/workflow.ts"] := by
  refine ⟨by decide, by decide, by decide⟩

/-- Claim C3 (amended): `generateWrapperFiles` performs exactly one
wrapper generation per unique (function name, import origin) pair — the
grouping keeps one representative per key and covers every call — but
the wrapper module path is a function of the function name alone: two
grouped call sites get the same `workflow.ts` path exactly when their
function names coincide (so pairs differing only in origin share one
module, the later write overwriting the earlier). -/
theorem claim_C3_theorem (calls : List CronStartCall) (fs : FsE)
    (workingDir : String) (t : TsconfigPaths)
    (hwd : jsStartsWith workingDir "/" = true)
    (hnames : ∀ c ∈ calls, c.workflowFunctionName.data.all isWordCh = true) :
    ((uniqueWorkflows calls).Pairwise fun a b => callKey a ≠ callKey b) ∧
    (∀ c ∈ calls, ∃ u ∈ uniqueWorkflows calls, callKey u = callKey c) ∧
    (∀ c1 ∈ uniqueWorkflows calls, ∀ c2 ∈ uniqueWorkflows calls,
      ((generateWrapperDirectory c1 (getCronWrapperDir fs workingDir)
          workingDir t).1.workflowFilePath =
       (generateWrapperDirectory c2 (getCronWrapperDir fs workingDir)
          workingDir t).1.workflowFilePath ↔
        c1.workflowFunctionName = c2.workflowFunctionName)) := by
  obtain ⟨hpair, hcov⟩ := uniqueWorkflows_inv calls
  refine ⟨hpair, hcov, ?_⟩
  intro c1 hc1 c2 hc2
  have hm1 := hnames _ (uniqueWorkflows_sub calls c1 hc1)
  have hm2 := hnames _ (uniqueWorkflows_sub calls c2 hc2)
  show (pathJoin (pathJoin (getCronWrapperDir fs workingDir)
      ("trigger-" ++ c1.workflowFunctionName)) "workflow.ts" =
    pathJoin (pathJoin (getCronWrapperDir fs workingDir)
      ("trigger-" ++ c2.workflowFunctionName)) "workflow.ts") ↔ _
  exact wrapperPath_inj fs workingDir hwd _ _ hm1 hm2

/-- Witness call list for C3 (word-like distinct names). -/
def wordishCalls : List CronStartCall :=
  [⟨"alpha", "./a", "/proj/src/x.ts"⟩, ⟨"beta", "./b", "/proj/src/y.ts"⟩]

/-- Witness for C3: distinct function names get distinct wrapper module
paths. -/
theorem claim_C3_witness :
    (generateWrapperDirectory ⟨"alpha", "./a", "/proj/src/x.ts"⟩
        (getCronWrapperDir srcAppOnlyFs "/proj") "/proj"
        ⟨none, []⟩).1.workflowFilePath ≠
    (generateWrapperDirectory ⟨"beta", "./b", "/proj/src/y.ts"⟩
        (getCronWrapperDir srcAppOnlyFs "/proj") "/proj"
        ⟨none, []⟩).1.workflowFilePath := by
  intro heq
  have h := ((claim_C3_theorem wordishCalls srcAppOnlyFs "/proj" ⟨none, []⟩
      (by decide) (by decide)).2.2
      ⟨"alpha", "./a", "/proj/src/x.ts"⟩ (by decide)
      ⟨"beta", "./b", "/proj/src/y.ts"⟩ (by decide)).mp heq
  exact absurd h (by decide)

theorem charSplitAux_chars (sep : Char) (l cur seg : List Char) (x : Char)
    (hseg : seg ∈ charSplitAux sep l cur) (hx : x ∈ seg) :
    x ∈ l ∨ x ∈ cur := by
  induction l generalizing cur with
  | nil =>
    simp [charSplitAux] at hseg
    subst hseg
    right
    simpa using hx
  | cons ch cs ih =>
    simp only [charSplitAux] at hseg
    split at hseg
    · rcases List.mem_cons.mp hseg with h1 | h1
      · subst h1
        right
        simpa using hx
      · rcases ih ([] : List Char) h1 with h2 | h2
        · exact Or.inl (List.mem_cons_of_mem _ h2)
        · simp at h2
    · rcases ih (ch :: cur) hseg with h2 | h2
      · exact Or.inl (List.mem_cons_of_mem _ h2)
      · rcases List.mem_cons.mp h2 with h3 | h3
        · exact Or.inl (h3 ▸ List.mem_cons_self _ _)
        · exact Or.inr h3

theorem ic_chars (A : List (List Char)) (x : Char)
    (h : x ∈ intercalateChars A) :
    (∃ seg ∈ A, x ∈ seg) ∨ x = '/' := by
  induction A with
  | nil => simp [intercalateChars] at h
  | cons a rest ih =>
    cases rest with
    | nil =>
      left
      exact ⟨a, by simp, by simpa [intercalateChars] using h⟩
    | cons b bs =>
      simp only [intercalateChars] at h
      rcases List.mem_append.mp h with h1 | h1
      · exact Or.inl ⟨a, by simp, h1⟩
      · rcases List.mem_cons.mp h1 with h2 | h2
        · exact Or.inr h2
        · rcases ih h2 with ⟨seg, hseg, hx⟩ | h3
          · exact Or.inl ⟨seg, List.mem_cons_of_mem _ hseg, hx⟩
          · exact Or.inr h3

theorem renderAbs_norm_split_chars (s : String) (x : Char)
    (h : x ∈ (renderAbs (normSegs (splitSegs s))).data) :
    x ∈ s.data ∨ x = '/' := by
  rw [renderAbs_data] at h
  rcases List.mem_cons.mp h with h | h
  · exact Or.inr h
  · rcases ic_chars _ _ h with ⟨seg, hseg, hx⟩ | h
    · have hseg2 : seg ∈ splitSegs s := by
        rcases foldl_normStep_mem _ [] seg hseg with h0 | h1
        · simp at h0
        · exact h1.1
      rcases charSplitAux_chars '/' s.data [] seg x hseg2 hx with h2 | h2
      · exact Or.inl h2
      · simp at h2
    · exact Or.inr h

theorem pathResolve_chars (base p : String) (x : Char)
    (h : x ∈ (pathResolve base p).data) :
    x ∈ base.data ∨ x ∈ p.data ∨ x = '/' := by
  unfold pathResolve at h
  split at h
  · rcases renderAbs_norm_split_chars p x h with h1 | h1
    · exact Or.inr (Or.inl h1)
    · exact Or.inr (Or.inr h1)
  · rcases renderAbs_norm_split_chars (base ++ "/" ++ p) x h with h1 | h1
    · have h2 : x ∈ (base.data ++ ['/']) ++ p.data := h1
      rcases List.mem_append.mp h2 with h3 | h3
      · rcases List.mem_append.mp h3 with h4 | h4
        · exact Or.inl h4
        · exact Or.inr (Or.inr (by simpa using h4))
      · exact Or.inr (Or.inl h3)
    · exact Or.inr (Or.inr h1)

theorem mapSlash_eq_self (s : String) (h : ∀ x ∈ s.data, x ≠ '\\') :
    mapSlash s = s := by
  apply String.ext
  show s.data.map (fun ch => if ch = '\\' then '/' else ch) = s.data
  conv_rhs => rw [← List.map_id s.data]
  apply List.map_congr_left
  intro a ha
  simp [h a ha]

theorem mapSlash_pathResolve (base p : String)
    (hb : ∀ x ∈ base.data, x ≠ '\\') (hp : ∀ x ∈ p.data, x ≠ '\\') :
    mapSlash (pathResolve base p) = pathResolve base p := by
  apply mapSlash_eq_self
  intro x hx
  rcases pathResolve_chars base p x hx with h | h | h
  · exact hb x h
  · exact hp x h
  · rw [h]; decide

/-- The canonical alias table `{"@/*": ["./src/*"]}`. -/
def canonicalTable : TsconfigPaths := ⟨none, [("@/*", ["./src/*"])]⟩

/-- Counterexample for C1: with the canonical table, whose single
pattern is trivially the first match, `resolvePathAlias "@/lib/x"`
yields `/proj/src/lib/x`, but `absolutePathToAlias` maps that path back
to `"@//lib/x"` — not the original specifier `"@/lib/x"` (the remainder
keeps its leading separator because the target base loses its trailing
slash under path resolution). -/
theorem claim_C1_counterexample :
    resolvePathAlias "@/lib/x" "/proj" canonicalTable =
      some "/proj/src/lib/x" ∧
    absolutePathToAlias "/proj/src/lib/x" "/proj" canonicalTable =
      some "@//lib/x" ∧
    ("@//lib/x" : String) ≠ "@/lib/x" := by
  refine ⟨by decide, by decide, by decide⟩

theorem resolveAliasStep_terminal (absBase pat m : String)
    (maps : List String) (ppc mb cap : List Char)
    (hpat : charSplit '*' pat.data = [ppc, []])
    (hmap : charSplit '*' m.data = [mb ++ ['/'], []]) :
    resolveAliasStep absBase (⟨ppc ++ cap⟩ : String) (pat, m :: maps) =
      some (pathResolve absBase (⟨mb ++ '/' :: cap⟩ : String)) := by
  obtain ⟨hm1, hm2, -⟩ := charSplit_eq_pair '*' m.data _ _ hmap
  have hmne : ¬ (m = "") := by
    intro h
    rw [h] at hm1
    simp at hm1
  have hrep : replaceFirstChar m '*' (⟨cap⟩ : String) =
      ⟨mb ++ '/' :: cap⟩ := by
    apply String.ext
    show replaceFirstCharAux '*' cap m.data = mb ++ '/' :: cap
    rw [hm1, replaceFirstCharAux_split '*' cap _ _ hm2]
    simp
  unfold resolveAliasStep
  rw [show (⟨ppc ++ cap⟩ : String).data = ppc ++ cap from rfl, hpat,
    matchStars_terminal]
  simp only [List.head?_cons, if_neg hmne, List.head?_cons, Option.getD_some]
  rw [hrep]

theorem jsStartsWith_slash_false (mb rest : List Char) (hmb0 : mb ≠ [])
    (hmbh : mb.head? ≠ some '/') :
    jsStartsWith (⟨mb ++ rest⟩ : String) "/" = false := by
  cases mb with
  | nil => exact absurd rfl hmb0
  | cons h tl =>
    have hh : ¬ ('/' = h) := by
      intro he
      exact hmbh (by rw [← he]; rfl)
    show listIsPrefix ("/" : String).data ((h :: tl) ++ rest) = false
    rw [show ("/" : String).data = ['/'] from rfl]
    simp [listIsPrefix, hh]

theorem toAliasStep_terminal (absBase pat m : String) (maps : List String)
    (ppc mb c : List Char)
    (hpat : charSplit '*' pat.data = [ppc, []])
    (hmap : charSplit '*' m.data = [mb ++ ['/'], []])
    (hmb0 : mb ≠ []) (hmbh : mb.head? ≠ some '/')
    (hbase : normSegs (splitSegs (absBase ++ "/" ++ (⟨mb⟩ : String))) ≠ [])
    (hnb : ∀ x ∈ absBase.data, x ≠ '\\') (hnbm : ∀ x ∈ mb, x ≠ '\\') :
    toAliasStep absBase
      (renderAbs (normSegs (splitSegs (absBase ++ "/" ++ (⟨mb⟩ : String))) ++
        charSplit '/' c)) (pat, m :: maps) =
      some (⟨ppc ++ '/' :: c⟩ : String) := by
  obtain ⟨hm1, hm2, -⟩ := charSplit_eq_pair '*' m.data _ _ hmap
  obtain ⟨hp1, hp2, -⟩ := charSplit_eq_pair '*' pat.data _ _ hpat
  have hmne : ¬ (m = "") := by
    intro h
    rw [h] at hm1
    simp at hm1
  have hmbase : replaceFirstChar m '*' "" = (⟨mb ++ ['/']⟩ : String) := by
    apply String.ext
    show replaceFirstCharAux '*' [] m.data = mb ++ ['/']
    rw [hm1, replaceFirstCharAux_split '*' [] _ _ hm2]
    simp
  have hpathd : (absBase ++ "/" ++ (⟨mb ++ ['/']⟩ : String)).data =
      (absBase.data ++ '/' :: mb) ++ '/' :: [] := by
    show (absBase.data ++ ['/']) ++ (mb ++ ['/']) = _
    simp
  have hsplitmb : (absBase ++ "/" ++ (⟨mb⟩ : String)).data =
      absBase.data ++ '/' :: mb := by
    show (absBase.data ++ ['/']) ++ mb = _
    simp
  have habsMB : pathResolve absBase (⟨mb ++ ['/']⟩ : String) =
      renderAbs (normSegs (splitSegs (absBase ++ "/" ++ (⟨mb⟩ : String)))) := by
    rw [pathResolve_rel _ _ (jsStartsWith_slash_false mb ['/'] hmb0 hmbh)]
    unfold splitSegs
    rw [hpathd, charSplit_append_sep, hsplitmb]
    rw [show charSplit '/' ([] : List Char) = [[]] from rfl]
    rw [normSegs_append]
    simp [normStep_empty]
  have hms : mapSlash (pathResolve absBase (⟨mb ++ ['/']⟩ : String)) =
      pathResolve absBase (⟨mb ++ ['/']⟩ : String) := by
    apply mapSlash_pathResolve absBase _ hnb
    intro x hx
    rcases List.mem_append.mp hx with h | h
    · exact hnbm x h
    · rw [List.mem_singleton.mp h]; decide
  have hcne : charSplit '/' c ≠ [] := charSplitAux_ne_nil '/' c []
  have hicapp : intercalateChars
      (normSegs (splitSegs (absBase ++ "/" ++ (⟨mb⟩ : String))) ++
        charSplit '/' c) =
      intercalateChars (normSegs (splitSegs (absBase ++ "/" ++
        (⟨mb⟩ : String)))) ++ '/' ::
        intercalateChars (charSplit '/' c) :=
    ic_append_ne _ _ hbase hcne
  unfold toAliasStep
  simp only [List.head?_cons, if_neg hmne]
  rw [hmbase, hms, habsMB]
  have hpref : jsStartsWith
      (renderAbs (normSegs (splitSegs (absBase ++ "/" ++ (⟨mb⟩ : String))) ++
        charSplit '/' c))
      (renderAbs (normSegs (splitSegs (absBase ++ "/" ++ (⟨mb⟩ : String))))) =
      true := by
    show listIsPrefix _ _ = true
    rw [renderAbs_data, renderAbs_data, hicapp]
    exact listIsPrefix_append_self ('/' :: intercalateChars _) _
  rw [if_pos hpref]
  congr 1
  apply String.ext
  show (replaceFirstCharAux '*' [] pat.data) ++
      ((renderAbs _).data.drop (renderAbs _).data.length) = ppc ++ '/' :: c
  rw [hp1, replaceFirstCharAux_split '*' [] _ _ hp2]
  rw [renderAbs_data, renderAbs_data, hicapp]
  rw [show ('/' :: (intercalateChars (normSegs (splitSegs (absBase ++ "/" ++
      (⟨mb⟩ : String)))) ++ '/' :: intercalateChars (charSplit '/' c))) =
    ('/' :: intercalateChars (normSegs (splitSegs (absBase ++ "/" ++
      (⟨mb⟩ : String))))) ++ '/' :: intercalateChars (charSplit '/' c)
    from by simp]
  rw [List.drop_left]
  rw [ic_charSplit c]
  simp

theorem pathResolve_mb_append (absBase : String) (mb c : List Char)
    (hmb0 : mb ≠ []) (hmbh : mb.head? ≠ some '/')
    (hcseg : ∀ seg ∈ charSplit '/' c, cleanSeg seg) :
    pathResolve absBase (⟨mb ++ '/' :: c⟩ : String) =
      renderAbs (normSegs (splitSegs (absBase ++ "/" ++ (⟨mb⟩ : String))) ++
        charSplit '/' c) := by
  rw [pathResolve_rel _ _ (jsStartsWith_slash_false mb ('/' :: c) hmb0 hmbh)]
  have hd : (absBase ++ "/" ++ (⟨mb ++ '/' :: c⟩ : String)).data =
      (absBase.data ++ '/' :: mb) ++ '/' :: c := by
    show (absBase.data ++ ['/']) ++ (mb ++ '/' :: c) = _
    simp
  have hsplitmb : (absBase ++ "/" ++ (⟨mb⟩ : String)).data =
      absBase.data ++ '/' :: mb := by
    show (absBase.data ++ ['/']) ++ mb = _
    simp
  unfold splitSegs
  rw [hd, charSplit_append_sep, hsplitmb,
    normSegs_append_clean _ _ hcseg]

theorem pathResolve_mb_append2 (absBase : String) (mb c : List Char)
    (hmb0 : mb ≠ []) (hmbh : mb.head? ≠ some '/')
    (hcseg : ∀ seg ∈ charSplit '/' c, cleanSeg seg) :
    pathResolve absBase (⟨mb ++ '/' :: '/' :: c⟩ : String) =
      renderAbs (normSegs (splitSegs (absBase ++ "/" ++ (⟨mb⟩ : String))) ++
        charSplit '/' c) := by
  rw [pathResolve_rel _ _
    (jsStartsWith_slash_false mb ('/' :: '/' :: c) hmb0 hmbh)]
  have hd : (absBase ++ "/" ++ (⟨mb ++ '/' :: '/' :: c⟩ : String)).data =
      (absBase.data ++ '/' :: mb) ++ '/' :: ('/' :: c) := by
    show (absBase.data ++ ['/']) ++ (mb ++ '/' :: '/' :: c) = _
    simp
  have hsplitmb : (absBase ++ "/" ++ (⟨mb⟩ : String)).data =
      absBase.data ++ '/' :: mb := by
    show (absBase.data ++ ['/']) ++ mb = _
    simp
  unfold splitSegs
  rw [hd, charSplit_append_sep, charSplit_cons_sep, hsplitmb]
  rw [normSegs_append, List.foldl_cons, normStep_empty,
    foldl_normStep_clean_append _ _ hcseg]

/-- C1 (amended). Alias round-trip with a separator shift: take an alias
table whose entry `(pat, m :: maps)` has a single-star pattern
`pat = <head>*` and a first mapping `m = <base>/*` whose target base is
relative and ends in a slash (the canonical shape, e.g.
`"@/*": ["./src/*"]`). For a clean remainder `c`, resolving the
specifier `<head> ++ c` lands on an absolute path `p`; converting `p`
back yields not the original specifier but `<head> ++ "/" ++ c` — the
remainder keeps its leading separator, because path resolution strips
the trailing slash of the mapping base — and that shifted specifier
still resolves to the same absolute path `p`. The side conditions say
the entry is the first one to fire in each of the three scans, the
segments of `c` are clean (no empty, `.` or `..` segment), and no
backslashes occur (so Windows separator normalisation is the
identity). -/
theorem claim_C1_theorem
    (workingDir pat m : String) (maps : List String)
    (ps₁ ps₂ : List (String × List String)) (t : TsconfigPaths)
    (ppc mb c : List Char)
    (hpaths : t.paths = ps₁ ++ (pat, m :: maps) :: ps₂)
    (hpat : charSplit '*' pat.data = [ppc, []])
    (hmap : charSplit '*' m.data = [mb ++ ['/'], []])
    (hmb0 : mb ≠ []) (hmbh : mb.head? ≠ some '/')
    (hcseg : ∀ seg ∈ charSplit '/' c, cleanSeg seg)
    (hnb : ∀ x ∈ (pathResolve workingDir (t.baseUrl.getD ".")).data,
      x ≠ '\\')
    (hnbm : ∀ x ∈ mb, x ≠ '\\') (hnbc : ∀ x ∈ c, x ≠ '\\')
    (hbase : normSegs (splitSegs (pathResolve workingDir
      (t.baseUrl.getD ".") ++ "/" ++ (⟨mb⟩ : String))) ≠ [])
    (hr1 : ∀ pr ∈ ps₁, resolveAliasStep
      (pathResolve workingDir (t.baseUrl.getD "."))
      (⟨ppc ++ c⟩ : String) pr = none)
    (hr2 : ∀ pr ∈ ps₁, toAliasStep
      (pathResolve workingDir (t.baseUrl.getD "."))
      (pathResolve (pathResolve workingDir (t.baseUrl.getD "."))
        (⟨mb ++ '/' :: c⟩ : String)) pr = none)
    (hr3 : ∀ pr ∈ ps₁, resolveAliasStep
      (pathResolve workingDir (t.baseUrl.getD "."))
      (⟨ppc ++ '/' :: c⟩ : String) pr = none) :
    ∃ p : String,
      resolvePathAlias (⟨ppc ++ c⟩ : String) workingDir t = some p ∧
      absolutePathToAlias p workingDir t =
        some (⟨ppc ++ '/' :: c⟩ : String) ∧
      resolvePathAlias (⟨ppc ++ '/' :: c⟩ : String) workingDir t =
        some p := by
  set absBase := pathResolve workingDir (t.baseUrl.getD ".") with hab
  have hp : pathResolve absBase (⟨mb ++ '/' :: c⟩ : String) =
      renderAbs (normSegs (splitSegs (absBase ++ "/" ++
        (⟨mb⟩ : String))) ++ charSplit '/' c) :=
    pathResolve_mb_append absBase mb c hmb0 hmbh hcseg
  have hmsp : mapSlash (pathResolve absBase (⟨mb ++ '/' :: c⟩ : String)) =
      pathResolve absBase (⟨mb ++ '/' :: c⟩ : String) := by
    apply mapSlash_pathResolve absBase _ hnb
    intro x hx
    rcases List.mem_append.mp hx with h | h
    · exact hnbm x h
    · rcases List.mem_cons.mp h with h1 | h1
      · rw [h1]; decide
      · exact hnbc x h1
  refine ⟨pathResolve absBase (⟨mb ++ '/' :: c⟩ : String), ?_, ?_, ?_⟩
  · show firstSome t.paths
      (resolveAliasStep absBase (⟨ppc ++ c⟩ : String)) = _
    rw [hpaths, firstSome_append_none _ _ _ hr1, firstSome_cons,
      resolveAliasStep_terminal absBase pat m maps ppc mb c hpat hmap]
  · show firstSome t.paths (toAliasStep absBase
      (mapSlash (pathResolve absBase (⟨mb ++ '/' :: c⟩ : String)))) = _
    rw [hmsp, hp, hpaths]
    rw [hp] at hr2
    rw [firstSome_append_none _ _ _ hr2, firstSome_cons,
      toAliasStep_terminal absBase pat m maps ppc mb c hpat hmap hmb0
        hmbh hbase hnb hnbm]
  · show firstSome t.paths
      (resolveAliasStep absBase (⟨ppc ++ '/' :: c⟩ : String)) = _
    rw [hpaths, firstSome_append_none _ _ _ hr3, firstSome_cons,
      resolveAliasStep_terminal absBase pat m maps ppc mb ('/' :: c)
        hpat hmap]
    show some _ = some _
    rw [pathResolve_mb_append2 absBase mb c hmb0 hmbh hcseg, hp]

instance instDecidableCleanSeg (seg : List Char) : Decidable (cleanSeg seg) :=
  decidable_of_iff (seg ≠ [] ∧ seg ≠ ['.'] ∧ seg ≠ ['.', '.']) Iff.rfl

/-- Witness for C1 at the canonical table: `@/lib/x` resolves to
`/proj/src/lib/x`, which converts back to the shifted specifier
`@//lib/x`, which resolves to the same `/proj/src/lib/x`. -/
theorem claim_C1_witness :
    ∃ p : String,
      resolvePathAlias "@/lib/x" "/proj" canonicalTable = some p ∧
      absolutePathToAlias p "/proj" canonicalTable = some "@//lib/x" ∧
      resolvePathAlias "@//lib/x" "/proj" canonicalTable = some p :=
  claim_C1_theorem "/proj" "@/*" "./src/*" [] [] [] canonicalTable
    "@/".data "./src".data "lib/x".data rfl (by decide) (by decide)
    (by decide) (by decide) (by decide) (by decide) (by decide)
    (by decide) (by decide)
    (by intro pr hpr; exact absurd hpr (List.not_mem_nil pr))
    (by intro pr hpr; exact absurd hpr (List.not_mem_nil pr))
    (by intro pr hpr; exact absurd hpr (List.not_mem_nil pr))
